import Mathlib

/-!
Shallow embedding of the BoxHunt image-crawler core (src/boxhunt) in Lean 4,
and theorems checking the natural-language specification against it.

External effects (HTTP responses, image decoding, the filesystem) are modelled
as explicit oracle arguments; the control flow of each embedded function follows
the Python source line by line.
-/

namespace BoxHunt

/-! ### Configuration constants (src/boxhunt/config.py) -/

def MAX_FILE_SIZE : Nat := 10 * 1024 * 1024

def MIN_IMAGE_WIDTH : Nat := 256

def MIN_IMAGE_HEIGHT : Nat := 256

def ALLOWED_FORMATS : List String := ["jpg", "jpeg", "png", "webp"]

def MAX_CONCURRENT_REQUESTS : Nat := 3

/-! ### Candidate model (src/boxhunt/api_clients.py, class ImageResult) -/

structure ImageResult where
  url : String
  thumbnail_url : String := ""
  title : String := ""
  source : String := ""
  width : Int := 0
  height : Int := 0
deriving DecidableEq, Repr

/-! ### Source Manager fan-out (src/boxhunt/api_clients.py, APIManager.search_all_sources)

Each configured client's `search_images` task is modelled by its outcome: either
`Except.error ()` (the task raised) or `Except.ok results`. `asyncio.gather`
with `return_exceptions=True` delivers the outcomes in client-registration
order; the `for` loop extends `all_images` with each non-exception result. -/

def gatherLoop : List (Except Unit (List ImageResult)) → List ImageResult
  | [] => []
  | Except.error _ :: rest => gatherLoop rest
  | Except.ok l :: rest => l ++ gatherLoop rest

def search_all_sources (outcomes : List (Except Unit (List ImageResult))) :
    List ImageResult :=
  if outcomes.isEmpty then [] else gatherLoop outcomes

/-! ### Metadata Store (src/boxhunt/storage.py, class StorageManager)

The CSV metadata file is modelled as `Option CsvFile`: `none` when the file
does not exist on disk, `some ⟨header, rows⟩` otherwise. The pandas write in
`save_image_metadata` can raise (disk/store write error); that effect is the
boolean oracle `writeOk`. `datetime.now().isoformat()` is the oracle
`current_time`. -/

structure MetadataRecord where
  id : Nat
  filename : String
  url : String
  source : String
  title : String
  width : Nat
  height : Nat
  file_size : Nat
  perceptual_hash : String
  download_time : String
  created_at : String
  status : String
deriving DecidableEq, Repr

structure CsvFile where
  header : List String
  rows : List MetadataRecord
deriving DecidableEq, Repr

def METADATA_HEADERS : List String :=
  ["id", "filename", "url", "source", "title", "width", "height", "file_size",
   "perceptual_hash", "download_time", "created_at", "status"]

/-- The dict returned by `ImageProcessor.process_image` for an accepted image
(the `metadata_list` elements consumed by `save_image_metadata`). -/
structure ImageMetadata where
  filename : String
  filepath : String
  url : String
  source : String
  title : String
  width : Nat
  height : Nat
  file_size : Nat
  perceptual_hash : String
  download_time : String
deriving DecidableEq, Repr

/-- `StorageManager._get_next_id` (storage.py:118-128): `max(existing id) + 1`
when the file exists with a nonempty `id` column, else 1. -/
def get_next_id (file : Option CsvFile) : Nat :=
  match file with
  | none => 1
  | some f =>
    if f.rows ≠ [] ∧ "id" ∈ f.header then
      (f.rows.map MetadataRecord.id).foldl max 0 + 1
    else 1

/-- The record-building loop of `save_image_metadata` (storage.py:78-93):
`record["id"] = next_id + i` for the `i`-th metadata dict of the batch. -/
def build_records (next_id : Nat) (current_time : String) :
    List ImageMetadata → List MetadataRecord
  | [] => []
  | m :: rest =>
    { id := next_id, filename := m.filename, url := m.url, source := m.source,
      title := m.title, width := m.width, height := m.height,
      file_size := m.file_size, perceptual_hash := m.perceptual_hash,
      download_time := m.download_time, created_at := current_time,
      status := "downloaded" } :: build_records (next_id + 1) current_time rest

/-- The body of the `try` block of `save_image_metadata` (storage.py:70-112):
computes the next id, builds the records, appends them in one `to_csv` call
(writing the header when the file does not yet exist). A failed write raises. -/
def save_try (file : Option CsvFile) (writeOk : Bool) (current_time : String)
    (metadata_list : List ImageMetadata) : Except String (Option CsvFile) :=
  let records := build_records (get_next_id file) current_time metadata_list
  if writeOk then
    match file with
    | some f => Except.ok (some { f with rows := f.rows ++ records })
    | none => Except.ok (some { header := METADATA_HEADERS, rows := records })
  else Except.error "write failed"

/-- `StorageManager.save_image_metadata` (storage.py:65-116). The result is
`Except.error` only if an exception escapes the call; the source wraps the body
in `try/except Exception`, logs, and returns `False`, so no exception escapes:
the value is the returned bool paired with the resulting file state. -/
def save_image_metadata (file : Option CsvFile) (writeOk : Bool)
    (current_time : String) (metadata_list : List ImageMetadata) :
    Except String (Bool × Option CsvFile) :=
  if metadata_list.isEmpty then Except.ok (true, file)
  else
    match save_try file writeOk current_time metadata_list with
    | Except.ok file' => Except.ok (true, file')
    | Except.error _ => Except.ok (false, file)

/-- `StorageManager.cleanup_orphaned_files` (storage.py:209-253). `diskFiles`
is the `os.listdir` view of the images directory; `removeFails f = true` means
`os.remove f` raises (that file is skipped and not counted). Returns the list
of removed files and the returned count. -/
def lowerChar (c : Char) : Char :=
  if c.toNat ≥ 65 ∧ c.toNat ≤ 90 then Char.ofNat (c.toNat + 32) else c

/-- ASCII model of Python `str.lower()`, applied to filenames and URL paths. -/
def strToLower (s : String) : String := String.mk (s.data.map lowerChar)

/-- Model of Python `str.endswith(suffix)`. -/
def strEndsWith (s suffix : String) : Bool := suffix.data.isSuffixOf s.data

def is_allowed_image_file (filename : String) : Bool :=
  ALLOWED_FORMATS.any (fun ext => strEndsWith (strToLower filename) ("." ++ ext))

def cleanup_orphaned_files (file : Option CsvFile) (diskFiles : List String)
    (removeFails : String → Bool) : List String × Nat :=
  match file with
  | none => ([], 0)
  | some f =>
    if "filename" ∈ f.header then
      let metadata_files := f.rows.map MetadataRecord.filename
      let image_files := diskFiles.filter (fun fn => is_allowed_image_file fn)
      let orphaned := image_files.filter (fun fn => !(metadata_files.contains fn))
      let removed := orphaned.filter (fun fn => !(removeFails fn))
      (removed, removed.length)
    else ([], 0)

def oldRowsOf (file : Option CsvFile) : List MetadataRecord :=
  match file with
  | none => []
  | some f => f.rows

/-- A concrete store with one record of id 4, for exercising C8. -/
def sampleFile : CsvFile :=
  { header := METADATA_HEADERS,
    rows := [{ id := 4, filename := "a.jpg", url := "u", source := "s",
               title := "", width := 300, height := 300, file_size := 10,
               perceptual_hash := "0000000000000000",
               download_time := "0", created_at := "c",
               status := "downloaded" }] }

/-- A concrete two-element batch of accepted-image metadata, for C8. -/
def sampleBatch : List ImageMetadata :=
  [{ filename := "b.jpg", filepath := "p", url := "u2", source := "s",
     title := "", width := 320, height := 320, file_size := 11,
     perceptual_hash := "00000000000000ff", download_time := "1" },
   { filename := "c.jpg", filepath := "p2", url := "u3", source := "s",
     title := "", width := 330, height := 330, file_size := 12,
     perceptual_hash := "000000000000ffff", download_time := "2" }]

/-! ### Image Processor (src/boxhunt/image_processor.py, class ImageProcessor)

Downloads are modelled by the outcome of the single `session.get` call:
`Except.error ()` for a transport exception, `Except.ok r` for a response with
status, optional numeric `content-length` header and body bytes. PIL decoding
(`Image.open` + mode conversion) and `imagehash.average_hash` are external
libraries and appear as oracle functions on the byte string / decoded image;
`none` models a raised exception (caught by the source's handlers). -/

abbrev Bytes := List Nat

structure HttpResponse where
  status : Nat
  content_length : Option Nat
  body : Bytes
deriving DecidableEq, Repr

structure PILImage where
  width : Nat
  height : Nat
  content : Nat
deriving DecidableEq, Repr

/-- `if content_length and int(content_length) > Config.MAX_FILE_SIZE`
(image_processor.py:63-64): true only when the header is present and exceeds
the limit. -/
def content_length_exceeds (cl? : Option Nat) : Bool :=
  match cl? with
  | some cl => decide (cl > MAX_FILE_SIZE)
  | none => false

/-- `ImageProcessor._download_image` (image_processor.py:52-85), as a function
of the current Failed-URL Set and the HTTP outcome; returns the download result
and the updated Failed-URL Set. -/
def download_image (failed_urls : List String) (url : String)
    (resp : Except Unit HttpResponse) : Option Bytes × List String :=
  if failed_urls.contains url then (none, failed_urls)
  else
    match resp with
    | Except.error _ => (none, url :: failed_urls)
    | Except.ok r =>
      if r.status = 200 then
        if content_length_exceeds r.content_length then (none, url :: failed_urls)
        else if r.body.length > MAX_FILE_SIZE then (none, url :: failed_urls)
        else (some r.body, failed_urls)
      else (none, url :: failed_urls)

/-- `ImageProcessor._validate_image` (image_processor.py:87-114). The RGB mode
conversion and format normalisation do not affect any modelled observable; the
decode oracle returns the (converted) image, `none` for a decode exception. -/
def validate_image (decode : Bytes → Option PILImage) (image_data : Bytes) :
    Option PILImage :=
  match decode image_data with
  | none => none
  | some img =>
    if img.width < MIN_IMAGE_WIDTH ∨ img.height < MIN_IMAGE_HEIGHT then none
    else some img

def hexDigitVal? (c : Char) : Option Nat :=
  if 48 ≤ c.toNat ∧ c.toNat ≤ 57 then some (c.toNat - 48)
  else if 97 ≤ c.toNat ∧ c.toNat ≤ 102 then some (c.toNat - 87)
  else if 65 ≤ c.toNat ∧ c.toNat ≤ 70 then some (c.toNat - 55)
  else none

def hexToNatAux : List Char → Nat → Option Nat
  | [], acc => some acc
  | c :: cs, acc =>
    match hexDigitVal? c with
    | some d => hexToNatAux cs (acc * 16 + d)
    | none => none

/-- Model of `imagehash.hex_to_hash`, restricted to the 64-bit (16 hex digit)
average-hash format this pipeline produces; any other input stands for the
raised exception. -/
def hex_to_hash (s : String) : Option Nat :=
  if s.length = 16 then hexToNatAux s.data 0 else none

def bitAt (n i : Nat) : Nat := n / 2 ^ i % 2

/-- `ImageHash.__sub__`: the number of differing bits of two 64-bit hashes. -/
def hammingDistance (a b : Nat) : Nat :=
  ((List.range 64).map (fun i => bitAt (a ^^^ b) i)).sum

/-- The `for existing_hash_str in self.downloaded_hashes` loop of
`_is_duplicate` (image_processor.py:134-142): `Except.error` marks an
exception raised by `hex_to_hash` on a malformed stored hash, which aborts the
scan and is caught by the surrounding handler. -/
def dupScanLoop (current threshold : Nat) : List String → Except Unit Bool
  | [] => Except.ok false
  | e :: rest =>
    match hex_to_hash e with
    | none => Except.error ()
    | some eh =>
      if hammingDistance current eh ≤ threshold then Except.ok true
      else dupScanLoop current threshold rest

/-- `ImageProcessor._is_duplicate` (image_processor.py:126-146). -/
def is_duplicate (downloaded_hashes : List String) (phash : String)
    (threshold : Nat := 5) : Bool :=
  if phash = "" then false
  else
    match hex_to_hash phash with
    | none => false
    | some current =>
      match dupScanLoop current threshold downloaded_hashes with
      | Except.ok b => b
      | Except.error _ => false

structure ProcessorState where
  downloaded_hashes : List String
  failed_urls : List String
deriving DecidableEq, Repr

/-- The external effects of one `process_image` call: the HTTP outcome for the
candidate's URL, the PIL decode and average-hash oracles, whether `image.save`
succeeds, the saved file's size, the `time.time()` stamp and the generated
filename (the md5/timestamp computation of `_generate_filename`). -/
structure ProcessEnv where
  fetch : Except Unit HttpResponse
  decode : Bytes → Option PILImage
  ahash : PILImage → Option String
  saveOk : Bool
  fileSize : Nat
  now : String
  filename : String
  images_dir : String

/-- `ImageProcessor.process_image` (image_processor.py:148-207): download,
validate, fingerprint, deduplicate, persist. Returns the metadata dict for an
accepted image (`none` on any rejection) and the updated processor state. -/
def process_image (env : ProcessEnv) (st : ProcessorState) (img : ImageResult) :
    Option ImageMetadata × ProcessorState :=
  match download_image st.failed_urls img.url env.fetch with
  | (none, failed') => (none, { st with failed_urls := failed' })
  | (some data, failed') =>
    -- `if not image_data: return None` also rejects an empty body
    if data.isEmpty then (none, { st with failed_urls := failed' })
    else
      match validate_image env.decode data with
      | none => (none, { st with failed_urls := failed' })
      | some pimg =>
        -- `_calculate_perceptual_hash` returns "" when average_hash raises
        let phash := match env.ahash pimg with | some s => s | none => ""
        if phash = "" then (none, { st with failed_urls := failed' })
        else if is_duplicate st.downloaded_hashes phash 5 then
          (none, { st with failed_urls := failed' })
        else if env.saveOk then
          (some { filename := env.filename,
                  filepath := env.images_dir ++ "/" ++ env.filename,
                  url := img.url, source := img.source, title := img.title,
                  width := pimg.width, height := pimg.height,
                  file_size := env.fileSize, perceptual_hash := phash,
                  download_time := env.now },
           { downloaded_hashes := st.downloaded_hashes ++ [phash],
             failed_urls := failed' })
        else (none, { st with failed_urls := failed' })

/-- `ImageProcessor.load_existing_hashes` (image_processor.py:241-253): seeds
the Dedup Index with the store's `perceptual_hash` column (pandas `dropna`
drops the empty cells). -/
def load_existing_hashes (st : ProcessorState) (file : Option CsvFile) :
    ProcessorState :=
  match file with
  | none => st
  | some f =>
    if "perceptual_hash" ∈ f.header then
      { st with downloaded_hashes := st.downloaded_hashes
          ++ ((f.rows.map MetadataRecord.perceptual_hash).filter
                (fun h => h ≠ "" && !(st.downloaded_hashes.contains h))) }
    else st

/-- The result-filtering loop of `process_image_batch`
(image_processor.py:230-236): exceptions are logged and dropped, `None`
results are dropped, accepted metadata dicts are kept in order. -/
def batch_filter_loop (acc : List ImageMetadata) :
    List (Except String (Option ImageMetadata)) → List ImageMetadata
  | [] => acc
  | Except.error _ :: rest => batch_filter_loop acc rest
  | Except.ok none :: rest => batch_filter_loop acc rest
  | Except.ok (some m) :: rest => batch_filter_loop (acc ++ [m]) rest

/-- The fresh processor state of `ImageProcessor.__init__`. -/
def initial_processor_state : ProcessorState := ⟨[], []⟩

/-- A concrete candidate, processor state and environment exercising the
near-duplicate rejection path: the index holds hash 0, the new image hashes to
7, and the Hamming distance 3 is within the threshold 5. -/
def procImg1 : ImageResult := { url := "http://e/a.jpg" }

def procState1 : ProcessorState := ⟨["0000000000000000"], []⟩

def procEnv1 : ProcessEnv :=
  { fetch := Except.ok ⟨200, none, [1]⟩,
    decode := fun _ => some ⟨300, 300, 0⟩,
    ahash := fun _ => some "0000000000000007",
    saveOk := true, fileSize := 1, now := "0", filename := "f.jpg",
    images_dir := "d" }

/-- An environment whose decode oracle always raises (undecodable bytes). -/
def procEnvBadDecode : ProcessEnv :=
  { fetch := Except.ok ⟨200, none, [1]⟩,
    decode := fun _ => none,
    ahash := fun _ => some "0000000000000007",
    saveOk := true, fileSize := 1, now := "0", filename := "f.jpg",
    images_dir := "d" }

/-! ### Website Crawler (src/boxhunt/website_client.py, class WebsiteClient)

URL parsing follows `urllib.parse.urlparse` on the URL shapes this crawler
handles: an optional `scheme:` prefix (letter followed by letters, digits,
`+`, `-`, `.`; lowercased), a `//netloc` part delimited by `/`, `?` or `#`,
and a path delimited by `?` or `#`. `urljoin` is an external oracle `join`;
every property proved below holds for an arbitrary join function because the
source re-validates the joined URL. -/

def takeUntil (p : Char → Bool) : List Char → List Char × List Char
  | [] => ([], [])
  | c :: cs =>
    if p c then ([], c :: cs)
    else
      let r := takeUntil p cs
      (c :: r.1, r.2)

def isSchemeRestChar (c : Char) : Bool := c.isAlphanum || c == '+' || c == '-' || c == '.'

structure UrlParts where
  scheme : String
  netloc : String
  path : String
deriving DecidableEq, Repr

def urlparse (u : String) : UrlParts :=
  let pr := takeUntil (· == ':') u.data
  let sa : String × List Char :=
    match pr.2 with
    | [] => ("", u.data)
    | _ :: restTail =>
      match pr.1 with
      | [] => ("", u.data)
      | c :: cs =>
        if c.isAlpha && cs.all isSchemeRestChar then
          (String.mk (pr.1.map lowerChar), restTail)
        else ("", u.data)
  if sa.2.take 2 = ['/', '/'] then
    let nl := takeUntil (fun c => c == '/' || c == '?' || c == '#') (sa.2.drop 2)
    { scheme := sa.1, netloc := String.mk nl.1,
      path := String.mk (takeUntil (fun c => c == '?' || c == '#') nl.2).1 }
  else
    { scheme := sa.1, netloc := "",
      path := String.mk (takeUntil (fun c => c == '?' || c == '#') sa.2).1 }

/-- `WebsiteClient._is_valid_url` (website_client.py:291-297). -/
def is_valid_url (url : String) : Bool :=
  let p := urlparse url
  (p.scheme == "http" || p.scheme == "https") && !(p.netloc == "")

/-- `WebsiteClient._get_base_url` (website_client.py:299-302). -/
def get_base_url (url : String) : String :=
  let p := urlparse url
  p.scheme ++ "://" ++ p.netloc

/-- `WebsiteClient._is_same_domain` (website_client.py:328-335). -/
def is_same_domain (url1 url2 : String) : Bool :=
  (urlparse url1).netloc == (urlparse url2).netloc

/-- `WebsiteClient._extract_domain_name` (website_client.py:304-326). -/
def extract_domain_name (url : String) : String :=
  let domain := strToLower (urlparse url).netloc
  let domain :=
    if ("www.".data).isPrefixOf domain.data then String.mk (domain.data.drop 4)
    else domain
  let domain := String.mk (takeUntil (· == ':') domain.data).1
  let parts := domain.splitOn "."
  match parts with
  | first :: _ :: _ => first
  | _ => domain

def strTakeUntilHash (s : String) : String := String.mk (takeUntil (· == '#') s.data).1

/-- Model of Python `str.strip()` (ASCII whitespace). -/
def strStrip (s : String) : String :=
  String.mk (((s.data.dropWhile Char.isWhitespace).reverse.dropWhile
    Char.isWhitespace).reverse)

/-- `WebsiteClient._normalize_url` (website_client.py:242-269): fragment strip,
whitespace strip, `data:`/`.pdf` rejection, `urljoin` with the page URL, and
the http/https scheme check on the joined URL. -/
def normalize_url (join : String → String → String) (url base_url : String) :
    Option String :=
  if url == "" then none
  else
    let url := strStrip (strTakeUntilHash url)
    if url == "" then none
    else if ("data:".data).isPrefixOf url.data then none
    else if strEndsWith url ".pdf" then none
    else
      let full_url := join base_url url
      let p := urlparse full_url
      if p.scheme == "http" || p.scheme == "https" then some full_url
      else none

def IMAGE_EXTENSIONS : List String :=
  [".jpg", ".jpeg", ".png", ".gif", ".webp", ".bmp", ".svg"]

def IMAGE_INDICATORS : List String := ["image", "img", "photo", "picture", "pic"]

/-- Model of the Python substring test `needle in haystack`. -/
def containsSublist (needle : List Char) : List Char → Bool
  | [] => needle.isEmpty
  | c :: rest => needle.isPrefixOf (c :: rest) || containsSublist needle rest

/-- `WebsiteClient._is_image_url` (website_client.py:271-289). -/
def is_image_url (url : String) : Bool :=
  if url == "" then false
  else
    let path := strToLower (urlparse url).path
    IMAGE_EXTENSIONS.any (fun ext => containsSublist ext.data path.data)
    || IMAGE_INDICATORS.any (fun ind => containsSublist ind.data (strToLower path).data)

/-- The data BeautifulSoup extracts from one fetched page: per-`img` resolved
`src`/`data-src`/`data-lazy-src` attribute, the `srcset` strings of
`picture > source` tags, the CSS `background-image: url(...)` regex matches,
and the `href` values of anchors. -/
structure PageData where
  status : Nat
  imgSrcs : List (Option String)
  srcsets : List String
  cssRefs : List String
  hrefs : List String

/-- The crawler's external world: the HTTP fetch per URL (`Except.error ()`
for a transport exception), the `urljoin` oracle, the per-image title/width/
height lookup of `_scrape_page`, and the robots.txt verdict for the seed. -/
structure CrawlEnv where
  web : String → Except Unit PageData
  join : String → String → String
  imgMeta : String → String × Int × Int
  robotsAllowed : String → Bool

/-- Python-set insertion: add if not already present (`set.add`). -/
def insertIfAbsent (l : List String) (x : String) : List String :=
  if l.contains x then l else l ++ [x]

/-- `part.strip().split()[0]`: the first whitespace-delimited word, `none` for
the `IndexError` on an all-whitespace part. -/
def firstWord (s : String) : Option String :=
  let l := s.data.dropWhile Char.isWhitespace
  if l.isEmpty then none
  else some (String.mk (l.takeWhile (fun c => !c.isWhitespace)))

/-- The per-part loop of `WebsiteClient._extract_from_srcset`; the
`Except.error` is the `IndexError` raised on a malformed srcset part, which
propagates to `_scrape_page`'s handler. -/
def srcset_go (join : String → String → String) (base_url : String) :
    List String → Except Unit (List String)
  | [] => Except.ok []
  | part :: rest =>
    match firstWord part with
    | none => Except.error ()
    | some w =>
      match srcset_go join base_url rest with
      | Except.error e => Except.error e
      | Except.ok tail =>
        match normalize_url join w base_url with
        | some full => if is_image_url full then Except.ok (full :: tail)
                       else Except.ok tail
        | none => Except.ok tail

/-- `WebsiteClient._extract_from_srcset` (website_client.py:216-226). -/
def srcset_urls (join : String → String → String) (srcset base_url : String) :
    Except Unit (List String) :=
  srcset_go join base_url (srcset.splitOn ",")

def srcsetAll (join : String → String → String) (base_url : String) :
    List String → Except Unit (List String)
  | [] => Except.ok []
  | s :: rest =>
    match srcset_urls join s base_url with
    | Except.error e => Except.error e
    | Except.ok u =>
      match srcsetAll join base_url rest with
      | Except.error e => Except.error e
      | Except.ok r => Except.ok (u ++ r)

/-- One step of the `img`-tag extraction loop of `_scrape_page`
(website_client.py:125-134): normalize the resolved `src` attribute and add it
to the `image_urls` set when it looks like an image URL. -/
def img_src_step (join : String → String → String) (url : String)
    (acc : List String) (src? : Option String) : List String :=
  match src? with
  | none => acc
  | some src =>
    match normalize_url join src url with
    | none => acc
    | some full => if is_image_url full then insertIfAbsent acc full else acc

/-- One CSS `background-image` match of `_scrape_page`
(website_client.py:235-238), normalized and filtered. -/
def css_ref_norm (join : String → String → String) (url m : String) :
    Option String :=
  match normalize_url join m url with
  | some full => if is_image_url full then some full else none
  | none => none

/-- `WebsiteClient._scrape_page` (website_client.py:108-182): builds the
`image_urls` set from `img` tags, `picture > source` srcsets and CSS
background images, then maps each to an `ImageResult`; any error (transport,
non-200, extraction exception) yields `[]`. -/
def scrape_page (env : CrawlEnv) (url : String) : List ImageResult :=
  match env.web url with
  | Except.error _ => []
  | Except.ok pd =>
    if pd.status = 200 then
      let fromImgs := pd.imgSrcs.foldl (img_src_step env.join url) []
      match srcsetAll env.join url pd.srcsets with
      | Except.error _ => []
      | Except.ok fromSrcsets =>
        let urls1 := fromSrcsets.foldl insertIfAbsent fromImgs
        let fromCss := pd.cssRefs.filterMap (css_ref_norm env.join url)
        let image_urls := fromCss.foldl insertIfAbsent urls1
        image_urls.map (fun img_url =>
          { url := img_url, thumbnail_url := img_url,
            title := (env.imgMeta img_url).1,
            source := extract_domain_name url,
            width := (env.imgMeta img_url).2.1,
            height := (env.imgMeta img_url).2.2 })
    else []

/-- One `(full_url, depth)` pair of `_find_page_links`
(website_client.py:202-208). -/
def link_pair (env : CrawlEnv) (visited : List String) (base_url url : String)
    (depth : Nat) (href : String) : Option (String × Nat) :=
  match normalize_url env.join href url with
  | none => none
  | some full =>
    if !(visited.contains full) && is_same_domain full base_url then
      some (full, depth)
    else none

/-- `WebsiteClient._find_page_links` (website_client.py:184-214). -/
def find_page_links (env : CrawlEnv) (visited : List String)
    (base_url url : String) (depth max_depth : Nat) : List (String × Nat) :=
  if depth > max_depth then []
  else
    match env.web url with
    | Except.error _ => []
    | Except.ok pd =>
      if pd.status = 200 then
        pd.hrefs.filterMap (link_pair env visited base_url url depth)
      else []

structure CrawlState where
  visited : List String
  seen_urls : List String
  results : List ImageResult
  frontier : List (String × Nat)
  /-- ghost: the `(url, depth)` entries actually processed (fetched), in order -/
  trace : List (String × Nat)
  /-- ghost: every link entry ever pushed onto the frontier -/
  pushed : List (String × Nat)

/-- The `if len(results) < max_images and depth < self.max_depth` guard of
website_client.py:93-97, producing the links to extend the frontier with. -/
def crawl_new_links (env : CrawlEnv) (max_images max_depth : Nat)
    (base_url : String) (visited' : List String) (current_url : String)
    (depth nresults : Nat) : List (String × Nat) :=
  if nresults < max_images ∧ depth < max_depth then
    find_page_links env visited' base_url current_url (depth + 1) max_depth
  else []

/-- The `while urls_to_visit and len(results) < max_images` loop of
`scrape_website` (website_client.py:62-103), with explicit fuel (the Python
loop's termination is not modelled). -/
def crawl_loop (env : CrawlEnv) (max_images max_depth : Nat) (base_url : String) :
    Nat → CrawlState → CrawlState
  | 0, st => st
  | fuel + 1, st =>
    match st.frontier with
    | [] => st
    | (current_url, depth) :: rest =>
      if st.results.length ≥ max_images then st
      else if st.visited.contains current_url then
        crawl_loop env max_images max_depth base_url fuel { st with frontier := rest }
      else if depth > max_depth then
        crawl_loop env max_images max_depth base_url fuel { st with frontier := rest }
      else
        let visited' := st.visited ++ [current_url]
        let page_results := scrape_page env current_url
        let sr := page_results.foldl (fun (acc : List String × List ImageResult) ir =>
            if acc.1.contains ir.url then acc
            else (acc.1 ++ [ir.url], acc.2 ++ [ir])) (st.seen_urls, st.results)
        let new_links := crawl_new_links env max_images max_depth base_url
            visited' current_url depth sr.2.length
        crawl_loop env max_images max_depth base_url fuel
          { visited := visited', seen_urls := sr.1, results := sr.2,
            frontier := rest ++ new_links,
            trace := st.trace ++ [(current_url, depth)],
            pushed := st.pushed ++ new_links }

/-- `WebsiteClient.scrape_website` (website_client.py:40-106): URL validation,
robots.txt gate, then the BFS loop seeded with `(url, 0)`. -/
def scrape_website (env : CrawlEnv) (respect_robots : Bool) (max_depth : Nat)
    (url : String) (max_images : Nat) (fuel : Nat) : CrawlState :=
  if !(is_valid_url url) then ⟨[], [], [], [], [], []⟩
  else if respect_robots && !(env.robotsAllowed url) then ⟨[], [], [], [], [], []⟩
  else
    crawl_loop env max_images max_depth (get_base_url url) fuel
      ⟨[], [], [], [(url, 0)], [], []⟩

/-- The inductive invariant of the BFS loop: processed URLs are distinct and
recorded in `visited`, processed depths are within bound, pushed links share
the crawl's base domain, the concatenation of processed depths and frontier
depths is nondecreasing (front-first consumption), and all frontier depths
exceed the front entry's depth by at most one. -/
def CrawlInv (max_depth : Nat) (base_url : String) (st : CrawlState) : Prop :=
  (st.trace.map Prod.fst).Nodup
  ∧ (∀ p ∈ st.trace, p.1 ∈ st.visited)
  ∧ (∀ p ∈ st.trace, p.2 ≤ max_depth)
  ∧ (∀ p ∈ st.pushed, is_same_domain p.1 base_url = true)
  ∧ List.Chain' (· ≤ ·) (st.trace.map Prod.snd ++ st.frontier.map Prod.snd)
  ∧ (∀ h ∈ st.frontier.head?, ∀ q ∈ st.frontier, q.2 ≤ h.2 + 1)

/-- A concrete crawl environment (every fetch fails) for exercising C2. -/
def crawlEnvW : CrawlEnv :=
  { web := fun _ => Except.error (), join := fun _ u => u,
    imgMeta := fun _ => ("", 0, 0), robotsAllowed := fun _ => true }

/-! ### Keyword API Client (src/boxhunt/api_clients.py, PexelsAPIClient)

Provider JSON is modelled literally; Python dict/list indexing raises
`KeyError`/`TypeError` (an `Except.error`), `dict.get` falls back to its
default. `_make_request`'s own failures are swallowed into `none`. -/

inductive Json where
  | null
  | bool (b : Bool)
  | num (n : Int)
  | str (s : String)
  | arr (xs : List Json)
  | obj (fields : List (String × Json))

/-- Python truthiness of a JSON value (`if not data`). -/
def jsonTruthy : Json → Bool
  | Json.null => false
  | Json.bool b => b
  | Json.num n => !(n == 0)
  | Json.str s => !(s == "")
  | Json.arr xs => !xs.isEmpty
  | Json.obj fs => !fs.isEmpty

/-- Python `k in data`: key lookup on a dict, element comparison on a list,
substring test on a string, `TypeError` otherwise. -/
def jsonHasKey : Json → String → Except String Bool
  | Json.obj fields, k => Except.ok (fields.any (fun f => f.1 == k))
  | Json.arr xs, k => Except.ok (xs.any (fun j =>
      match j with
      | Json.str s => s == k
      | _ => false))
  | Json.str s, k => Except.ok (containsSublist k.data s.data)
  | _, _ => Except.error "TypeError"

/-- Python `data[k]` on a JSON value: `KeyError` for a missing key,
`TypeError` off a dict. -/
def jsonIndex (j : Json) (k : String) : Except String Json :=
  match j with
  | Json.obj fields =>
    match fields.find? (fun f => f.1 == k) with
    | some f => Except.ok f.2
    | none => Except.error "KeyError"
  | _ => Except.error "TypeError"

/-- Python `data.get(k, default)`. -/
def jsonGet (j : Json) (k : String) : Option Json :=
  match j with
  | Json.obj fields => (fields.find? (fun f => f.1 == k)).map Prod.snd
  | _ => none

/-- The string stored in an `ImageResult` field (provider values are strings
on the happy path; a non-string is modelled as the empty string). -/
def jsonStr : Json → String
  | Json.str s => s
  | _ => ""

def jsonInt : Json → Int
  | Json.num n => n
  | _ => 0

def jsonArr : Json → Except String (List Json)
  | Json.arr xs => Except.ok xs
  | _ => Except.error "TypeError"

/-- The outcome of the single `session.get` of `_make_request`: a raised
exception, or a response with status and (when its body parses as JSON) a
value. -/
inductive MkReqOutcome where
  | exn
  | resp (status : Nat) (body : Option Json)

/-- `BaseAPIClient._make_request` (api_clients.py:47-60): `data` on a 200
response whose body parses, `None` (logged) on a non-200 status, a parse
failure or a transport exception. -/
def make_request : MkReqOutcome → Option Json
  | MkReqOutcome.exn => none
  | MkReqOutcome.resp status body =>
    if status = 200 then
      match body with
      | some j => some j
      | none => none
    else none

/-- The `for item in data['photos']` body (api_clients.py:173-182):
`item['src']['original']` and `item['src']['medium']` are raw subscripts that
raise on a missing field, while `alt`/`width`/`height` use `.get` with
defaults `''`/`0`. -/
def pexels_map_item (item : Json) : Except String ImageResult :=
  match jsonIndex item "src" with
  | Except.error e => Except.error e
  | Except.ok src =>
    match jsonIndex src "original" with
    | Except.error e => Except.error e
    | Except.ok original =>
      match jsonIndex src "medium" with
      | Except.error e => Except.error e
      | Except.ok medium =>
        Except.ok { url := jsonStr original, thumbnail_url := jsonStr medium,
                    title := jsonStr ((jsonGet item "alt").getD (Json.str "")),
                    source := "pexels",
                    width := jsonInt ((jsonGet item "width").getD (Json.num 0)),
                    height := jsonInt ((jsonGet item "height").getD (Json.num 0)) }

def pexels_map_items : List Json → Except String (List ImageResult)
  | [] => Except.ok []
  | item :: rest =>
    match pexels_map_item item with
    | Except.error e => Except.error e
    | Except.ok r =>
      match pexels_map_items rest with
      | Except.error e => Except.error e
      | Except.ok rs => Except.ok (r :: rs)

/-- `PexelsAPIClient.search_images` (api_clients.py:149-184). `Except.error`
is an exception escaping the call. -/
def pexels_search_images (api_key : String) (outcome : MkReqOutcome) :
    Except String (List ImageResult) :=
  if api_key == "" then Except.ok []
  else
    match make_request outcome with
    | none => Except.ok []
    | some data =>
      if !(jsonTruthy data) then Except.ok []
      else
        match jsonHasKey data "photos" with
        | Except.error e => Except.error e
        | Except.ok false => Except.ok []
        | Except.ok true =>
          match jsonIndex data "photos" with
          | Except.error e => Except.error e
          | Except.ok photos =>
            match jsonArr photos with
            | Except.error e => Except.error e
            | Except.ok items => pexels_map_items items

/-! ### Bounded concurrency (src/boxhunt/image_processor.py,
ImageProcessor.process_image_batch, lines 209-228)

`process_image_batch` runs `process_with_semaphore` per candidate, which is
`async with semaphore: return await self.process_image(...)` over
`asyncio.Semaphore(Config.MAX_CONCURRENT_REQUESTS)`. Each task is modelled as
a small state machine over the event loop's interleaving:

  `idle` —(acquire, needs a free permit)→ `downloading`
  —(download completes; the task proceeds to validate/hash/persist, still
  holding the permit, because the `async with` block spans the whole
  `process_image` call)→ `working` —(release on block exit)→ `done`. -/

inductive TaskPhase where
  | idle
  | downloading
  | working
  | done
deriving DecidableEq, Repr

structure SemState where
  phases : List TaskPhase
  sem : Nat
deriving DecidableEq, Repr

/-- The one-step moves of task `i` under the code's task structure. -/
def stepTask (s : SemState) (i : Nat) : List SemState :=
  match s.phases[i]? with
  | some TaskPhase.idle =>
    if 0 < s.sem then [⟨s.phases.set i TaskPhase.downloading, s.sem - 1⟩]
    else []
  | some TaskPhase.downloading => [⟨s.phases.set i TaskPhase.working, s.sem⟩]
  | some TaskPhase.working => [⟨s.phases.set i TaskPhase.done, s.sem + 1⟩]
  | _ => []

def semSteps (s : SemState) : List SemState :=
  ((List.range s.phases.length).map (stepTask s)).flatten

def SemStep (s s' : SemState) : Prop := s' ∈ semSteps s

def SemReachable (s0 s : SemState) : Prop := Relation.ReflTransGen SemStep s0 s

/-- The start of a batch of `n` candidates with semaphore capacity `C`. -/
def batchInit (C n : Nat) : SemState := ⟨List.replicate n TaskPhase.idle, C⟩

def downloadsInFlight (s : SemState) : Nat :=
  s.phases.count TaskPhase.downloading

/-- The permit-accounting invariant: free permits plus tasks inside the
`async with` block (downloading or validating/persisting) equals the
capacity. -/
def SemInv (C : Nat) (s : SemState) : Prop :=
  s.sem + s.phases.count TaskPhase.downloading
    + s.phases.count TaskPhase.working = C

theorem gatherLoop_eq_flatten (outcomes : List (Except Unit (List ImageResult))) :
    gatherLoop outcomes = (outcomes.filterMap Except.toOption).flatten := by
  induction outcomes with
  | nil => rfl
  | cons o rest ih =>
    cases o with
    | error e => simpa [gatherLoop, Except.toOption] using ih
    | ok l => simpa [gatherLoop, Except.toOption] using ih

theorem search_all_sources_eq_flatten
    (outcomes : List (Except Unit (List ImageResult))) :
    search_all_sources outcomes = (outcomes.filterMap Except.toOption).flatten := by
  cases outcomes with
  | nil => rfl
  | cons o rest => simpa [search_all_sources] using gatherLoop_eq_flatten (o :: rest)

/-- **C3.** `search_all_sources` returns exactly the concatenation, in
client-registration order, of the result lists of the non-failing clients: a
failing client contributes zero candidates and does not abort the others, and
with no configured clients the result is the empty list. -/
theorem search_all_sources_isolates_failures :
    (∀ (pre post : List (Except Unit (List ImageResult))) (e : Unit),
      search_all_sources (pre ++ Except.error e :: post)
        = (pre.filterMap Except.toOption).flatten
            ++ (post.filterMap Except.toOption).flatten)
  ∧ (∀ outcomes, search_all_sources outcomes
        = (outcomes.filterMap Except.toOption).flatten)
  ∧ search_all_sources [] = [] := by
  refine ⟨?_, search_all_sources_eq_flatten, rfl⟩
  intro pre post e
  rw [search_all_sources_eq_flatten]
  simp [Except.toOption]

/-- **C5 counterexample.** With an empty store and a single on-disk file
`orphan.txt`, the orphan set N \ M is `["orphan.txt"]` of size 1, but
`cleanup_orphaned_files` deletes nothing and returns 0, because the source only
considers files whose (lowercased) name ends in an allowed image-format
extension. -/
theorem cleanup_orphaned_files_misses_nonimage_orphan :
    cleanup_orphaned_files (some { header := METADATA_HEADERS, rows := [] })
        ["orphan.txt"] (fun _ => false) = ([], 0)
    ∧ (["orphan.txt"].filter
        (fun fn => !((([] : List MetadataRecord).map MetadataRecord.filename).contains fn)))
        = ["orphan.txt"]
    ∧ ([], 0) ≠ ((["orphan.txt"] : List String), 1) := by
  refine ⟨?_, by decide, by decide⟩
  decide

/-- **C5 (amended).** When every `os.remove` succeeds, `cleanup_orphaned_files`
deletes exactly the on-disk files that end in an allowed image-format extension
and are not referenced by any record, returns their count, and never deletes a
file whose name appears in a record. -/
theorem cleanup_orphaned_files_removes_exactly_image_orphans
    (f : CsvFile) (diskFiles : List String) (removeFails : String → Bool)
    (hdr : "filename" ∈ f.header)
    (hrm : ∀ s, removeFails s = false) :
    (cleanup_orphaned_files (some f) diskFiles removeFails).1
      = diskFiles.filter
          (fun fn => is_allowed_image_file fn
            && !((f.rows.map MetadataRecord.filename).contains fn))
    ∧ (cleanup_orphaned_files (some f) diskFiles removeFails).2
      = (diskFiles.filter
          (fun fn => is_allowed_image_file fn
            && !((f.rows.map MetadataRecord.filename).contains fn))).length
    ∧ ∀ fn ∈ (cleanup_orphaned_files (some f) diskFiles removeFails).1,
        ∀ r ∈ f.rows, r.filename ≠ fn := by
  have hfun : removeFails = fun _ => false := funext hrm
  subst hfun
  have hclean : cleanup_orphaned_files (some f) diskFiles (fun _ => false)
      = (diskFiles.filter
          (fun fn => is_allowed_image_file fn
            && !((f.rows.map MetadataRecord.filename).contains fn)),
         (diskFiles.filter
          (fun fn => is_allowed_image_file fn
            && !((f.rows.map MetadataRecord.filename).contains fn))).length) := by
    simp only [cleanup_orphaned_files, if_pos hdr, Bool.not_false, List.filter_true,
      List.filter_filter]
    rw [List.filter_congr]
    intro fn _
    rw [Bool.true_and, Bool.and_comm]
  refine ⟨by rw [hclean], by rw [hclean], ?_⟩
  intro fn hfn r hr heq
  rw [hclean] at hfn
  have := List.of_mem_filter hfn
  simp only [Bool.and_eq_true, Bool.not_eq_true'] at this
  have hmem : (f.rows.map MetadataRecord.filename).contains fn = true :=
    List.elem_eq_true_of_mem (List.mem_map.mpr ⟨r, hr, heq⟩)
  rw [this.2] at hmem
  exact Bool.false_ne_true hmem

/-- Witness for the amended C5 at a concrete store and directory listing. -/
theorem cleanup_orphaned_files_removes_exactly_image_orphans_witness :
    ("filename" ∈ (CsvFile.mk METADATA_HEADERS
        [{ id := 1, filename := "keep.jpg", url := "u", source := "s", title := "",
           width := 300, height := 300, file_size := 9,
           perceptual_hash := "0000000000000000", download_time := "0",
           created_at := "c", status := "downloaded" }]).header)
    ∧ ((cleanup_orphaned_files (some (CsvFile.mk METADATA_HEADERS
        [{ id := 1, filename := "keep.jpg", url := "u", source := "s", title := "",
           width := 300, height := 300, file_size := 9,
           perceptual_hash := "0000000000000000", download_time := "0",
           created_at := "c", status := "downloaded" }]))
        ["keep.jpg", "orphan.png", "notes.txt"] (fun _ => false)).1
      = ["orphan.png"]) := by
  have h := cleanup_orphaned_files_removes_exactly_image_orphans
    (CsvFile.mk METADATA_HEADERS
      [{ id := 1, filename := "keep.jpg", url := "u", source := "s", title := "",
         width := 300, height := 300, file_size := 9,
         perceptual_hash := "0000000000000000", download_time := "0",
         created_at := "c", status := "downloaded" }])
    ["keep.jpg", "orphan.png", "notes.txt"] (fun _ => false)
    (by decide) (fun s => rfl)
  exact ⟨by decide, by rw [h.1]; decide⟩

theorem foldl_max_spec (l : List Nat) (a : Nat) :
    l.foldl max a ∈ a :: l ∧ a ≤ l.foldl max a ∧ ∀ x ∈ l, x ≤ l.foldl max a := by
  induction l generalizing a with
  | nil => simp
  | cons b l ih =>
    obtain ⟨hmem, hle, hall⟩ := ih (max a b)
    simp only [List.foldl_cons]
    refine ⟨?_, le_trans (le_max_left a b) hle, ?_⟩
    · rcases List.mem_cons.mp hmem with h | h
      · rw [h]
        rcases max_choice a b with hc | hc <;> rw [hc]
        · exact List.mem_cons_self a _
        · exact List.mem_cons.mpr (Or.inr (List.mem_cons_self b _))
      · exact List.mem_cons.mpr (Or.inr (List.mem_cons.mpr (Or.inr h)))
    · intro x hx
      rcases List.mem_cons.mp hx with h | hx
      · rw [h]; exact le_trans (le_max_right a b) hle
      · exact hall x hx

theorem build_records_map_id (n : Nat) (t : String) (ms : List ImageMetadata) :
    (build_records n t ms).map MetadataRecord.id = List.range' n ms.length := by
  induction ms generalizing n with
  | nil => rfl
  | cons m rest ih => simp [build_records, List.range'_succ, ih]

theorem chain'_lt_range' (s n : Nat) :
    List.Chain' (· < ·) (List.range' s n) := by
  induction n generalizing s with
  | zero => simp
  | succ k ih =>
    rw [List.range'_succ]
    refine List.chain'_cons'.mpr ⟨?_, ih (s + 1)⟩
    intro y hy
    cases k with
    | zero => simp at hy
    | succ k' =>
      rw [List.range'_succ] at hy
      simp only [List.head?_cons, Option.mem_def, Option.some.injEq] at hy
      omega

theorem get_next_id_gt (file : Option CsvFile) (r : MetadataRecord)
    (hr : r ∈ oldRowsOf file) (hid : ∀ f, file = some f → "id" ∈ f.header) :
    r.id < get_next_id file := by
  match file with
  | none => simp [oldRowsOf] at hr
  | some f =>
    have hne : f.rows ≠ [] := by
      intro h; rw [oldRowsOf, h] at hr; simp at hr
    have hcol := hid f rfl
    have hmax := (foldl_max_spec (f.rows.map MetadataRecord.id) 0).2.2
    have hle : r.id ≤ (f.rows.map MetadataRecord.id).foldl max 0 :=
      hmax r.id (List.mem_map_of_mem MetadataRecord.id hr)
    have hcond : f.rows ≠ [] ∧ "id" ∈ f.header := ⟨hne, hcol⟩
    simp only [get_next_id, if_pos hcond]
    omega

/-- **C8.** For every non-empty batch saved with a succeeding write, the new
records are appended in one write after the existing rows; their ids start at
`get_next_id` — which is strictly greater than every existing id, and equals
one more than an existing id when the store has rows — and increment by one per
record in batch order, so the stored ids stay strictly increasing and no id is
reused; when the file did not exist it is created with the schema header row. -/
theorem save_image_metadata_id_assignment
    (file : Option CsvFile) (t : String) (ms : List ImageMetadata)
    (hne : ms ≠ [])
    (hid : ∀ f, file = some f → "id" ∈ f.header)
    (hsorted : List.Chain' (· < ·) ((oldRowsOf file).map MetadataRecord.id)) :
    ∃ f' : CsvFile,
      save_image_metadata file true t ms = Except.ok (true, some f')
      ∧ f'.rows.map MetadataRecord.id
          = (oldRowsOf file).map MetadataRecord.id
              ++ List.range' (get_next_id file) ms.length
      ∧ (∀ r ∈ oldRowsOf file, r.id < get_next_id file)
      ∧ (oldRowsOf file ≠ [] →
          ∃ r ∈ oldRowsOf file, get_next_id file = r.id + 1)
      ∧ List.Chain' (· < ·) (f'.rows.map MetadataRecord.id)
      ∧ (file = none → f'.header = METADATA_HEADERS)
      ∧ f'.rows.length = (oldRowsOf file).length + ms.length := by
  have hms : ms.isEmpty = false := by
    cases ms with
    | nil => exact absurd rfl hne
    | cons m rest => rfl
  have hids : ∀ r ∈ oldRowsOf file, r.id < get_next_id file :=
    fun r hr => get_next_id_gt file r hr hid
  have hmaxmem : oldRowsOf file ≠ [] →
      ∃ r ∈ oldRowsOf file, get_next_id file = r.id + 1 := by
    intro hrows
    match hf : file with
    | none => simp [oldRowsOf] at hrows
    | some f =>
      have hrows' : f.rows ≠ [] := by simpa [oldRowsOf] using hrows
      have hcond : f.rows ≠ [] ∧ "id" ∈ f.header := ⟨hrows', hid f rfl⟩
      have hmem := (foldl_max_spec (f.rows.map MetadataRecord.id) 0).1
      rcases List.mem_cons.mp hmem with hzero | hmem
      · -- the fold can only equal the seed 0 if 0 is itself attained or rows empty
        cases hr : f.rows with
        | nil => exact absurd hr hrows'
        | cons r rest =>
          refine ⟨r, by simp [oldRowsOf, hr], ?_⟩
          have h0 : (f.rows.map MetadataRecord.id).foldl max 0 = 0 := hzero
          have hle := (foldl_max_spec (f.rows.map MetadataRecord.id) 0).2.2
              r.id (by simp [hr])
          simp only [get_next_id, if_pos hcond, h0]
          omega
      · rcases List.mem_map.mp hmem with ⟨r, hr, hrid⟩
        refine ⟨r, by simpa [oldRowsOf] using hr, ?_⟩
        simp only [get_next_id, if_pos hcond, hrid]
  match hf : file with
  | none =>
    refine ⟨{ header := METADATA_HEADERS,
              rows := build_records (get_next_id none) t ms }, ?_, ?_, ?_, ?_, ?_, ?_, ?_⟩
    · simp [save_image_metadata, hms, save_try]
    · simpa [oldRowsOf] using build_records_map_id (get_next_id none) t ms
    · simpa [hf] using hids
    · simpa [hf] using hmaxmem
    · rw [build_records_map_id]
      exact chain'_lt_range' _ _
    · intro _; rfl
    · simp only [oldRowsOf, List.length_nil, Nat.zero_add]
      have := congrArg List.length (build_records_map_id (get_next_id none) t ms)
      simpa using this
  | some f =>
    refine ⟨{ f with rows := f.rows ++ build_records (get_next_id (some f)) t ms },
      ?_, ?_, ?_, ?_, ?_, ?_, ?_⟩
    · simp [save_image_metadata, hms, save_try]
    · simp [oldRowsOf, build_records_map_id]
    · simpa [hf] using hids
    · simpa [hf] using hmaxmem
    · rw [List.map_append, build_records_map_id]
      refine List.chain'_append.mpr ⟨by simpa [oldRowsOf, hf] using hsorted,
        chain'_lt_range' _ _, ?_⟩
      intro x hx y hy
      have hxmem : x ∈ f.rows.map MetadataRecord.id :=
        List.mem_of_getLast?_eq_some hx
      rcases List.mem_map.mp hxmem with ⟨r, hr, hrid⟩
      have hlt : r.id < get_next_id (some f) := hids r (by simpa [oldRowsOf, hf] using hr)
      have hy' : y = get_next_id (some f) := by
        cases hm : ms with
        | nil => exact absurd hm hne
        | cons m rest =>
          rw [hm] at hy
          simp only [List.length_cons, List.range'_succ, List.head?_cons,
            Option.mem_def, Option.some.injEq] at hy
          omega
      omega
    · intro h; exact absurd h (by simp)
    · have := congrArg List.length (build_records_map_id (get_next_id (some f)) t ms)
      simp only [oldRowsOf, List.length_append]
      simp only [List.length_map, List.length_range'] at this
      simp [this]

/-- Witness for C8 at a concrete store and batch. -/
theorem save_image_metadata_id_assignment_witness :
    ∃ f' : CsvFile,
      save_image_metadata (some sampleFile) true "now" sampleBatch
        = Except.ok (true, some f')
      ∧ f'.rows.map MetadataRecord.id
          = (oldRowsOf (some sampleFile)).map MetadataRecord.id
              ++ List.range' (get_next_id (some sampleFile)) sampleBatch.length
      ∧ (∀ r ∈ oldRowsOf (some sampleFile), r.id < get_next_id (some sampleFile))
      ∧ (oldRowsOf (some sampleFile) ≠ [] →
          ∃ r ∈ oldRowsOf (some sampleFile),
            get_next_id (some sampleFile) = r.id + 1)
      ∧ List.Chain' (· < ·) (f'.rows.map MetadataRecord.id)
      ∧ (some sampleFile = none → f'.header = METADATA_HEADERS)
      ∧ f'.rows.length = (oldRowsOf (some sampleFile)).length + sampleBatch.length :=
  save_image_metadata_id_assignment (some sampleFile) "now" sampleBatch
    (by simp [sampleBatch]) (fun f hf => by cases hf; simp [sampleFile, METADATA_HEADERS])
    (by simp [sampleFile, oldRowsOf])

theorem hammingDistance_self (a : Nat) : hammingDistance a a = 0 := by
  unfold hammingDistance
  rw [Nat.xor_self]
  simp [bitAt]

theorem hex_to_hash_empty : hex_to_hash "" = none := by decide

theorem dupScanLoop_mem_close (current threshold : Nat) (hashes : List String)
    (hwf : ∀ s ∈ hashes, (hex_to_hash s).isSome)
    (s : String) (hs : Nat) (hmem : s ∈ hashes) (hsparse : hex_to_hash s = some hs)
    (hclose : hammingDistance current hs ≤ threshold) :
    dupScanLoop current threshold hashes = Except.ok true := by
  induction hashes with
  | nil => simp at hmem
  | cons e rest ih =>
    obtain ⟨eh, heh⟩ := Option.isSome_iff_exists.mp (hwf e (List.mem_cons_self e rest))
    simp only [dupScanLoop, heh]
    by_cases hd : hammingDistance current eh ≤ threshold
    · rw [if_pos hd]
    · rw [if_neg hd]
      rcases List.mem_cons.mp hmem with heq | hmem'
      · subst heq
        rw [hsparse] at heh
        cases heh
        exact absurd hclose hd
      · exact ih (fun x hx => hwf x (List.mem_cons_of_mem _ hx)) hmem'

theorem is_duplicate_of_close (hashes : List String) (p : String) (hp : Nat)
    (hparse : hex_to_hash p = some hp)
    (hwf : ∀ s ∈ hashes, (hex_to_hash s).isSome)
    (s : String) (hs : Nat) (hmem : s ∈ hashes)
    (hsparse : hex_to_hash s = some hs)
    (hclose : hammingDistance hp hs ≤ 5) :
    is_duplicate hashes p 5 = true := by
  have hpne : p ≠ "" := by
    intro h
    rw [h, hex_to_hash_empty] at hparse
    cases hparse
  simp only [is_duplicate, if_neg hpne, hparse]
  rw [dupScanLoop_mem_close hp 5 hashes hwf s hs hmem hsparse hclose]

/-- A successful download leaves the Failed-URL Set unchanged. -/
theorem download_image_ok_unchanged (failed_urls : List String) (url : String)
    (resp : Except Unit HttpResponse) (data : Bytes)
    (h : (download_image failed_urls url resp).1 = some data) :
    download_image failed_urls url resp = (some data, failed_urls) := by
  unfold download_image at h ⊢
  by_cases hc : failed_urls.contains url = true
  · rw [if_pos hc] at h; cases h
  · rw [if_neg hc] at h ⊢
    match resp with
    | Except.error e => dsimp only at h; cases h
    | Except.ok r =>
      dsimp only at h ⊢
      by_cases hs : r.status = 200
      · rw [if_pos hs] at h ⊢
        by_cases h1 : content_length_exceeds r.content_length = true
        · rw [if_pos h1] at h; cases h
        · rw [if_neg h1] at h ⊢
          by_cases h2 : r.body.length > MAX_FILE_SIZE
          · rw [if_pos h2] at h; cases h
          · rw [if_neg h2] at h ⊢
            cases h
            rfl
      · rw [if_neg hs] at h; cases h

/-- Whatever happens after a successful download (validation, hashing, dedup,
persisting), `process_image` never touches the Failed-URL Set, and any
rejection of the downloaded content returns nothing. -/
theorem process_image_content_rejection (env : ProcessEnv) (st : ProcessorState)
    (img : ImageResult) (data : Bytes)
    (hdl : (download_image st.failed_urls img.url env.fetch).1 = some data) :
    (process_image env st img).2.failed_urls = st.failed_urls
    ∧ (validate_image env.decode data = none → (process_image env st img).1 = none)
    ∧ (∀ pimg p, validate_image env.decode data = some pimg →
        env.ahash pimg = some p → is_duplicate st.downloaded_hashes p 5 = true →
        (process_image env st img).1 = none
        ∧ (process_image env st img).2.downloaded_hashes = st.downloaded_hashes) := by
  have hdl' := download_image_ok_unchanged _ _ _ _ hdl
  unfold process_image
  rw [hdl']
  dsimp only
  by_cases hemp : data.isEmpty = true
  · rw [if_pos hemp]
    exact ⟨rfl, fun _ => rfl, fun pimg p _ _ _ => ⟨rfl, rfl⟩⟩
  · rw [if_neg hemp]
    cases hv : validate_image env.decode data with
    | none =>
      exact ⟨rfl, fun _ => rfl, fun pimg p hsome => by cases hsome⟩
    | some pimg =>
      dsimp only
      refine ⟨?_, ?_, ?_⟩
      · cases hh : env.ahash pimg with
        | none => rfl
        | some q =>
          dsimp only
          by_cases hq : q = ""
          · rw [if_pos hq]
          · rw [if_neg hq]
            by_cases hdup : is_duplicate st.downloaded_hashes q 5 = true
            · rw [if_pos hdup]
            · rw [if_neg hdup]
              by_cases hsave : env.saveOk = true
              · rw [if_pos hsave]
              · rw [if_neg hsave]
      · intro hnone; cases hnone
      · intro pimg' p hsome hhash hdup
        cases hsome
        rw [hhash]
        dsimp only
        have hpne : p ≠ "" := by
          intro h
          rw [h] at hdup
          simp [is_duplicate] at hdup
        rw [if_neg hpne, if_pos hdup]
        exact ⟨rfl, rfl⟩

/-- **C1.** If the downloaded, validated image's perceptual hash is within
Hamming distance 5 of a hash already in the (well-formed) Dedup Index,
`process_image` rejects the candidate, returns nothing, and adds nothing to
the index; and when the index has been seeded from the store, reprocessing an
image whose hash `H` is already stored is rejected the same way (resume
safety). -/
theorem process_image_rejects_near_duplicates :
    (∀ (env : ProcessEnv) (st : ProcessorState) (img : ImageResult)
        (data : Bytes) (pimg : PILImage) (p : String) (hp : Nat),
      (download_image st.failed_urls img.url env.fetch).1 = some data →
      validate_image env.decode data = some pimg →
      env.ahash pimg = some p →
      hex_to_hash p = some hp →
      (∀ s ∈ st.downloaded_hashes, (hex_to_hash s).isSome) →
      (∃ s ∈ st.downloaded_hashes, ∃ hs, hex_to_hash s = some hs
        ∧ hammingDistance hp hs ≤ 5) →
      (process_image env st img).1 = none
      ∧ (process_image env st img).2.downloaded_hashes = st.downloaded_hashes)
  ∧ (∀ (env : ProcessEnv) (f : CsvFile) (img : ImageResult)
        (data : Bytes) (pimg : PILImage) (H : String) (hH : Nat),
      "perceptual_hash" ∈ f.header →
      H ∈ f.rows.map MetadataRecord.perceptual_hash →
      hex_to_hash H = some hH →
      (∀ h ∈ f.rows.map MetadataRecord.perceptual_hash,
        h = "" ∨ (hex_to_hash h).isSome) →
      (download_image
          (load_existing_hashes initial_processor_state (some f)).failed_urls
          img.url env.fetch).1 = some data →
      validate_image env.decode data = some pimg →
      env.ahash pimg = some H →
      (process_image env (load_existing_hashes initial_processor_state (some f))
          img).1 = none) := by
  constructor
  · intro env st img data pimg p hp hdl hval hhash hparse hwf hclose
    obtain ⟨s, hmem, hs, hsparse, hdist⟩ := hclose
    have hdup : is_duplicate st.downloaded_hashes p 5 = true :=
      is_duplicate_of_close st.downloaded_hashes p hp hparse hwf s hs hmem hsparse hdist
    exact (process_image_content_rejection env st img data hdl).2.2 pimg p hval hhash hdup
  · intro env f img data pimg H hH hcol hmem hparse hwfstore hdl hval hhash
    set st := load_existing_hashes initial_processor_state (some f) with hst
    have hloaded : st.downloaded_hashes
        = (f.rows.map MetadataRecord.perceptual_hash).filter
            (fun h => h ≠ "" && !(([] : List String).contains h)) := by
      rw [hst]
      simp [load_existing_hashes, initial_processor_state, hcol]
    have hHne : H ≠ "" := by
      intro h
      rw [h, hex_to_hash_empty] at hparse
      cases hparse
    have hHmem : H ∈ st.downloaded_hashes := by
      rw [hloaded]
      refine List.mem_filter.mpr ⟨hmem, ?_⟩
      simp [hHne]
    have hwf : ∀ s ∈ st.downloaded_hashes, (hex_to_hash s).isSome := by
      intro s hs
      rw [hloaded] at hs
      have hmem' := List.mem_filter.mp hs
      have hne : s ≠ "" := by
        have := hmem'.2
        simp at this
        exact this
      rcases hwfstore s hmem'.1 with h | h
      · exact absurd h hne
      · exact h
    have hdup : is_duplicate st.downloaded_hashes H 5 = true :=
      is_duplicate_of_close st.downloaded_hashes H hH hparse hwf H hH hHmem hparse
        (by rw [hammingDistance_self]; omega)
    exact ((process_image_content_rejection env st img data hdl).2.2
      pimg H hval hhash hdup).1

/-- Witness for C1 at a concrete near-duplicate candidate. -/
theorem process_image_rejects_near_duplicates_witness :
    (process_image procEnv1 procState1 procImg1).1 = none
    ∧ (process_image procEnv1 procState1 procImg1).2.downloaded_hashes
        = procState1.downloaded_hashes :=
  process_image_rejects_near_duplicates.1 procEnv1 procState1 procImg1
    [1] ⟨300, 300, 0⟩ "0000000000000007" 7
    (by decide) (by decide) (by decide) (by decide)
    (by decide)
    ⟨"0000000000000000", by decide, 0, by decide, by decide⟩

/-- **C7.** The download stage: a URL in the Failed-URL Set is skipped without
issuing a request (the outcome is independent of the HTTP oracle); an
oversized Content-Length header rejects without reading the body (the outcome
is independent of the body) and caches the URL as failed; an oversized
downloaded body, a non-200 status, and a transport exception do the same;
whereas after a successful fetch, undecodable/too-small content and
near-duplicates are discarded with the Failed-URL Set left unchanged. -/
theorem download_stage_failed_url_policy :
    (∀ (failed : List String) (url : String) (resp : Except Unit HttpResponse),
      failed.contains url = true → download_image failed url resp = (none, failed))
  ∧ (∀ (failed : List String) (url : String) (r : HttpResponse) (body' : Bytes)
        (cl : Nat),
      failed.contains url = false → r.status = 200 → r.content_length = some cl →
      cl > MAX_FILE_SIZE →
      download_image failed url (Except.ok { r with body := body' })
        = (none, url :: failed))
  ∧ (∀ (failed : List String) (url : String) (r : HttpResponse),
      failed.contains url = false → r.status = 200 →
      content_length_exceeds r.content_length = false →
      r.body.length > MAX_FILE_SIZE →
      download_image failed url (Except.ok r) = (none, url :: failed))
  ∧ (∀ (failed : List String) (url : String) (r : HttpResponse),
      failed.contains url = false → r.status ≠ 200 →
      download_image failed url (Except.ok r) = (none, url :: failed))
  ∧ (∀ (failed : List String) (url : String) (e : Unit),
      failed.contains url = false →
      download_image failed url (Except.error e) = (none, url :: failed))
  ∧ (∀ (env : ProcessEnv) (st : ProcessorState) (img : ImageResult) (data : Bytes),
      (download_image st.failed_urls img.url env.fetch).1 = some data →
      (process_image env st img).2.failed_urls = st.failed_urls
      ∧ (validate_image env.decode data = none → (process_image env st img).1 = none)
      ∧ (∀ (pimg : PILImage) (p : String),
          validate_image env.decode data = some pimg →
          env.ahash pimg = some p →
          is_duplicate st.downloaded_hashes p 5 = true →
          (process_image env st img).1 = none)) := by
  refine ⟨?_, ?_, ?_, ?_, ?_, ?_⟩
  · intro failed url resp h
    unfold download_image
    rw [if_pos h]
  · intro failed url r body' cl h hs hcl hbig
    unfold download_image
    rw [if_neg (by rw [h]; simp)]
    dsimp only
    rw [if_pos hs]
    rw [if_pos (by simp [content_length_exceeds, hcl, hbig])]
  · intro failed url r h hs hcl hbody
    unfold download_image
    rw [if_neg (by rw [h]; simp)]
    dsimp only
    rw [if_pos hs, if_neg (by rw [hcl]; simp), if_pos hbody]
  · intro failed url r h hs
    unfold download_image
    rw [if_neg (by rw [h]; simp)]
    dsimp only
    rw [if_neg hs]
  · intro failed url e h
    unfold download_image
    rw [if_neg (by rw [h]; simp)]
  · intro env st img data hdl
    have hpci := process_image_content_rejection env st img data hdl
    exact ⟨hpci.1, hpci.2.1,
      fun pimg p h1 h2 h3 => ((hpci.2.2 pimg p h1 h2 h3)).1⟩

/-- Witness for C7 at concrete inputs exercising each branch of the policy. -/
theorem download_stage_failed_url_policy_witness :
    download_image ["u"] "u" (Except.ok ⟨200, none, [1]⟩) = (none, ["u"])
    ∧ download_image [] "u"
        (Except.ok { status := 200, content_length := some (MAX_FILE_SIZE + 1),
                     body := [] }) = (none, "u" :: [])
    ∧ download_image [] "u"
        (Except.ok ⟨200, none, List.replicate (MAX_FILE_SIZE + 1) 0⟩)
        = (none, "u" :: [])
    ∧ download_image [] "u" (Except.ok ⟨404, none, [1]⟩) = (none, "u" :: [])
    ∧ download_image [] "u" (Except.error ()) = (none, "u" :: [])
    ∧ ((process_image procEnvBadDecode procState1 procImg1).2.failed_urls
          = procState1.failed_urls
        ∧ (validate_image procEnvBadDecode.decode [1] = none →
            (process_image procEnvBadDecode procState1 procImg1).1 = none)
        ∧ (∀ (pimg : PILImage) (p : String),
            validate_image procEnvBadDecode.decode [1] = some pimg →
            procEnvBadDecode.ahash pimg = some p →
            is_duplicate procState1.downloaded_hashes p 5 = true →
            (process_image procEnvBadDecode procState1 procImg1).1 = none)) :=
  ⟨download_stage_failed_url_policy.1 ["u"] "u" _ (by decide),
   download_stage_failed_url_policy.2.1 []
     "u" { status := 200, content_length := some (MAX_FILE_SIZE + 1), body := [] }
     [] (MAX_FILE_SIZE + 1) (by decide) (by decide) (by decide) (by omega),
   download_stage_failed_url_policy.2.2.1 [] "u"
     ⟨200, none, List.replicate (MAX_FILE_SIZE + 1) 0⟩ (by decide) (by decide)
     (by decide) (by simp),
   download_stage_failed_url_policy.2.2.2.1 [] "u" ⟨404, none, [1]⟩
     (by decide) (by decide),
   download_stage_failed_url_policy.2.2.2.2.1 [] "u" () (by decide),
   download_stage_failed_url_policy.2.2.2.2.2 procEnvBadDecode procState1 procImg1
     [1] (by decide)⟩

theorem mem_find_page_links (env : CrawlEnv) (visited : List String)
    (base_url url : String) (depth max_depth : Nat) (p : String × Nat)
    (h : p ∈ find_page_links env visited base_url url depth max_depth) :
    is_same_domain p.1 base_url = true ∧ p.2 = depth := by
  unfold find_page_links at h
  by_cases hd : depth > max_depth
  · rw [if_pos hd] at h; simp at h
  · rw [if_neg hd] at h
    cases hw : env.web url with
    | error e => rw [hw] at h; simp at h
    | ok pd =>
      rw [hw] at h
      dsimp only at h
      by_cases hs : pd.status = 200
      · rw [if_pos hs] at h
        obtain ⟨a, _, hfa⟩ := List.mem_filterMap.mp h
        unfold link_pair at hfa
        cases hn : normalize_url env.join a url with
        | none => rw [hn] at hfa; cases hfa
        | some full =>
          rw [hn] at hfa
          dsimp only at hfa
          by_cases hc : (!(visited.contains full) && is_same_domain full base_url) = true
          · rw [if_pos hc] at hfa
            cases hfa
            exact ⟨(Bool.and_eq_true _ _ |>.mp hc).2, rfl⟩
          · rw [if_neg hc] at hfa; cases hfa
      · rw [if_neg hs] at h; simp at h

theorem mem_crawl_new_links (env : CrawlEnv) (max_images max_depth : Nat)
    (base_url : String) (visited' : List String) (current_url : String)
    (depth nresults : Nat) (p : String × Nat)
    (h : p ∈ crawl_new_links env max_images max_depth base_url visited'
          current_url depth nresults) :
    is_same_domain p.1 base_url = true ∧ p.2 = depth + 1 := by
  unfold crawl_new_links at h
  split at h
  · exact mem_find_page_links env visited' base_url current_url (depth + 1)
      max_depth p h
  · simp at h

theorem chain'_le_of_const (l : List Nat) (c : Nat) (h : ∀ x ∈ l, x = c) :
    List.Chain' (· ≤ ·) l := by
  induction l with
  | nil => simp
  | cons a l ih =>
    refine List.chain'_cons'.mpr ⟨?_, ih (fun x hx => h x (List.mem_cons_of_mem a hx))⟩
    intro y hy
    have ha := h a (List.mem_cons_self a l)
    have hyl := h y (List.mem_cons_of_mem a (List.mem_of_mem_head? hy))
    omega

theorem chain'_extend (T R L : List Nat) (d c : Nat)
    (h : List.Chain' (· ≤ ·) (T ++ d :: R))
    (hR : ∀ x ∈ R, x ≤ c) (hd : d ≤ c) (hL : ∀ x ∈ L, x = c) :
    List.Chain' (· ≤ ·) (T ++ d :: (R ++ L)) := by
  have h1 : T ++ d :: (R ++ L) = (T ++ d :: R) ++ L := by simp
  rw [h1]
  refine List.chain'_append.mpr ⟨h, chain'_le_of_const L c hL, ?_⟩
  intro x hx y hy
  have hyc : y = c := hL y (List.mem_of_mem_head? hy)
  rw [List.getLast?_append] at hx
  have hzs : ((d :: R).getLast?).isSome := by
    cases R with
    | nil => rfl
    | cons b R' => simp [List.getLast?_isSome]
  obtain ⟨z, hz⟩ := Option.isSome_iff_exists.mp hzs
  rw [hz] at hx
  simp only [Option.or_some, Option.mem_def, Option.some.injEq] at hx
  subst hx
  have hzmem : z ∈ d :: R := List.mem_of_getLast?_eq_some hz
  rcases List.mem_cons.mp hzmem with hzd | hzR
  · omega
  · have := hR z hzR
    omega

theorem crawl_loop_inv (env : CrawlEnv) (max_images max_depth : Nat)
    (base_url : String) :
    ∀ (fuel : Nat) (st : CrawlState), CrawlInv max_depth base_url st →
      CrawlInv max_depth base_url
        (crawl_loop env max_images max_depth base_url fuel st) := by
  intro fuel
  induction fuel with
  | zero => intro st h; exact h
  | succ fuel ih =>
    intro st h
    obtain ⟨hnd, hvis, hdep, hpush, hchain, hbound⟩ := h
    rw [crawl_loop]
    cases hfr : st.frontier with
    | nil => exact ⟨hnd, hvis, hdep, hpush, hchain, hbound⟩
    | cons hd rest =>
      obtain ⟨current_url, depth⟩ := hd
      dsimp only
      rw [hfr] at hchain hbound
      by_cases hmax : st.results.length ≥ max_images
      · rw [if_pos hmax]
        refine ⟨hnd, hvis, hdep, hpush, ?_, ?_⟩
        · rw [hfr]; exact hchain
        · rw [hfr]; exact hbound
      · rw [if_neg hmax]
        -- facts shared by all three continuing branches
        have hfsorted : List.Chain' (· ≤ ·)
            (((current_url, depth) :: rest).map Prod.snd) :=
          hchain.sublist (List.sublist_append_right _ _)
        have hrest_lo : ∀ q ∈ rest, depth ≤ q.2 := by
          intro q hq
          have hpw := List.chain'_iff_pairwise.mp hfsorted
          rw [List.map_cons] at hpw
          exact List.rel_of_pairwise_cons hpw (List.mem_map_of_mem Prod.snd hq)
        have hrest_hi : ∀ q ∈ rest, q.2 ≤ depth + 1 := by
          intro q hq
          exact hbound (current_url, depth) rfl q (List.mem_cons_of_mem _ hq)
        have hskip : CrawlInv max_depth base_url { st with frontier := rest } := by
          refine ⟨hnd, hvis, hdep, hpush, ?_, ?_⟩
          · exact hchain.sublist
              ((List.sublist_cons_self ((current_url, depth)).snd
                (rest.map Prod.snd)).append_left _)
          · intro h hh q hq
            have hhd : depth ≤ h.2 := hrest_lo h (List.mem_of_mem_head? hh)
            have := hrest_hi q hq
            omega
        by_cases hvisited : st.visited.contains current_url = true
        · rw [if_pos hvisited]
          exact ih _ hskip
        · rw [if_neg hvisited]
          by_cases hdmax : depth > max_depth
          · rw [if_pos hdmax]
            exact ih _ hskip
          · rw [if_neg hdmax]
            refine ih _ ⟨?_, ?_, ?_, ?_, ?_, ?_⟩
            · -- processed URLs stay distinct
              dsimp only
              rw [List.map_append]
              refine List.nodup_append.mpr ⟨hnd, List.nodup_singleton _, ?_⟩
              intro u hu hu'
              have hcur : u = current_url := by simpa using hu'
              subst hcur
              obtain ⟨p, hp, hp1⟩ := List.mem_map.mp hu
              have : u ∈ st.visited := hp1 ▸ hvis p hp
              exact hvisited (List.elem_eq_true_of_mem this)
            · -- processed URLs recorded in visited
              intro p hp
              rcases List.mem_append.mp hp with hp | hp
              · exact List.mem_append.mpr (Or.inl (hvis p hp))
              · have : p = (current_url, depth) := by simpa using hp
                subst this
                exact List.mem_append.mpr (Or.inr (by simp))
            · -- processed depths within bound
              intro p hp
              rcases List.mem_append.mp hp with hp | hp
              · exact hdep p hp
              · have : p = (current_url, depth) := by simpa using hp
                subst this
                omega
            · -- pushed links share the base domain
              intro p hp
              rcases List.mem_append.mp hp with hp | hp
              · exact hpush p hp
              · exact (mem_crawl_new_links _ _ _ _ _ _ _ _ p hp).1
            · -- front-first: trace depths ++ frontier depths stay sorted
              dsimp only
              simp only [List.map_append, List.map_cons, List.map_nil,
                List.append_assoc, List.singleton_append]
              refine chain'_extend _ _ _ depth (depth + 1)
                (by simpa using hchain) ?_ (by omega) ?_
              · intro x hx
                obtain ⟨q, hq, rfl⟩ := List.mem_map.mp hx
                exact hrest_hi q hq
              · intro x hx
                obtain ⟨q, hq, rfl⟩ := List.mem_map.mp hx
                exact (mem_crawl_new_links _ _ _ _ _ _ _ _ q hq).2
            · -- frontier depths stay within one of the front entry
              intro h hh q hq
              cases rest with
              | nil =>
                simp only [List.nil_append] at hh hq
                have hh2 := (mem_crawl_new_links _ _ _ _ _ _ _ _ h
                  (List.mem_of_mem_head? hh)).2
                have hq2 := (mem_crawl_new_links _ _ _ _ _ _ _ _ q hq).2
                omega
              | cons r rest' =>
                simp only [List.cons_append, List.head?_cons, Option.mem_def,
                  Option.some.injEq] at hh
                have hdr : depth ≤ r.2 := hrest_lo r (List.mem_cons_self r rest')
                subst hh
                rcases List.mem_append.mp hq with hq | hq
                · have := hrest_hi q hq
                  omega
                · have hq2 := (mem_crawl_new_links _ _ _ _ _ _ _ _ q hq).2
                  omega

/-- **C2.** In every crawl of `scrape_website` with maximum depth `D`: no URL
is dequeued and fetched twice (the processed trace has pairwise-distinct
URLs), no frontier entry with depth `> D` is processed, every link pushed onto
the frontier has the same domain as the crawl's base URL, and the frontier is
consumed front-first — the processed depths are nondecreasing
(breadth-first order). -/
theorem scrape_website_bfs_invariants (env : CrawlEnv) (respect_robots : Bool)
    (max_depth : Nat) (url : String) (max_images fuel : Nat) :
    ((scrape_website env respect_robots max_depth url max_images fuel).trace.map
        Prod.fst).Nodup
    ∧ (∀ p ∈ (scrape_website env respect_robots max_depth url max_images
          fuel).trace, p.2 ≤ max_depth)
    ∧ (∀ p ∈ (scrape_website env respect_robots max_depth url max_images
          fuel).pushed, is_same_domain p.1 (get_base_url url) = true)
    ∧ List.Chain' (· ≤ ·)
        ((scrape_website env respect_robots max_depth url max_images
          fuel).trace.map Prod.snd) := by
  unfold scrape_website
  split
  · exact ⟨by simp, by simp, by simp, by simp⟩
  · split
    · exact ⟨by simp, by simp, by simp, by simp⟩
    · have h := crawl_loop_inv env max_images max_depth (get_base_url url) fuel
        ⟨[], [], [], [(url, 0)], [], []⟩
        ⟨by simp, by simp, by simp, by simp, by simp, by simp⟩
      obtain ⟨hnd, _, hdep, hpush, hchain, _⟩ := h
      exact ⟨hnd, hdep, hpush,
        hchain.sublist (List.sublist_append_left _ _)⟩

/-- Witness for C2 at a concrete environment, seed and fuel. -/
theorem scrape_website_bfs_invariants_witness :
    ((scrape_website crawlEnvW false 2 "http://e/x" 10 5).trace.map
        Prod.fst).Nodup
    ∧ (∀ p ∈ (scrape_website crawlEnvW false 2 "http://e/x" 10 5).trace,
        p.2 ≤ 2)
    ∧ (∀ p ∈ (scrape_website crawlEnvW false 2 "http://e/x" 10 5).pushed,
        is_same_domain p.1 (get_base_url "http://e/x") = true)
    ∧ List.Chain' (· ≤ ·)
        ((scrape_website crawlEnvW false 2 "http://e/x" 10 5).trace.map
          Prod.snd) :=
  scrape_website_bfs_invariants crawlEnvW false 2 "http://e/x" 10 5

/-- Whatever `urljoin` returns, a URL that survives `_normalize_url` passed
the http/https scheme check. -/
theorem normalize_url_scheme (join : String → String → String) (u b full : String)
    (h : normalize_url join u b = some full) :
    (urlparse full).scheme = "http" ∨ (urlparse full).scheme = "https" := by
  unfold normalize_url at h
  split at h
  · cases h
  · dsimp only at h
    split at h
    · cases h
    · split at h
      · cases h
      · split at h
        · cases h
        · split at h
          · cases h
            rename_i hcond
            rcases Bool.or_eq_true _ _ |>.mp hcond with hc | hc
            · exact Or.inl (by simpa using hc)
            · exact Or.inr (by simpa using hc)
          · cases h

/-- References that are empty after fragment stripping (and whitespace strip),
`data:` URIs, and URLs ending in `.pdf` are all rejected by `_normalize_url`
(for every join oracle). -/
theorem normalize_url_rejects (join : String → String → String) (u b : String) :
    (strStrip (strTakeUntilHash u) = "" → normalize_url join u b = none)
    ∧ (("data:".data).isPrefixOf (strStrip (strTakeUntilHash u)).data = true →
        normalize_url join u b = none)
    ∧ (strEndsWith (strStrip (strTakeUntilHash u)) ".pdf" = true →
        normalize_url join u b = none) := by
  unfold normalize_url
  by_cases h0 : (u == "") = true
  · rw [if_pos h0]
    exact ⟨fun _ => rfl, fun _ => rfl, fun _ => rfl⟩
  · rw [if_neg h0]
    dsimp only
    by_cases h1 : (strStrip (strTakeUntilHash u) == "") = true
    · rw [if_pos h1]
      exact ⟨fun _ => rfl, fun _ => rfl, fun _ => rfl⟩
    · rw [if_neg h1]
      refine ⟨?_, ?_, ?_⟩
      · intro h
        exact absurd (by simpa using h) (by simpa using h1)
      · intro h
        rw [if_pos h]
      · intro h
        by_cases h2 : (("data:".data).isPrefixOf
            (strStrip (strTakeUntilHash u)).data) = true
        · rw [if_pos h2]
        · rw [if_neg h2, if_pos h]

theorem mem_insertIfAbsent (l : List String) (a x : String)
    (h : x ∈ insertIfAbsent l a) : x ∈ l ∨ x = a := by
  unfold insertIfAbsent at h
  split at h
  · exact Or.inl h
  · rcases List.mem_append.mp h with h | h
    · exact Or.inl h
    · exact Or.inr (by simpa using h)

theorem mem_foldl_insertIfAbsent (L : List String) :
    ∀ (init : List String) (x : String), x ∈ L.foldl insertIfAbsent init →
      x ∈ init ∨ x ∈ L := by
  induction L with
  | nil => intro init x h; exact Or.inl h
  | cons a L ih =>
    intro init x h
    rcases ih (insertIfAbsent init a) x h with h | h
    · rcases mem_insertIfAbsent init a x h with h | h
      · exact Or.inl h
      · exact Or.inr (by simp [h])
    · exact Or.inr (List.mem_cons_of_mem a h)

theorem mem_foldl_img_src_step (join : String → String → String) (url : String)
    (L : List (Option String)) :
    ∀ (init : List String) (x : String),
      x ∈ L.foldl (img_src_step join url) init →
      x ∈ init ∨ ∃ src, normalize_url join src url = some x := by
  induction L with
  | nil => intro init x h; exact Or.inl h
  | cons s? L ih =>
    intro init x h
    rcases ih (img_src_step join url init s?) x h with h | h
    · unfold img_src_step at h
      cases s? with
      | none => exact Or.inl h
      | some src =>
        dsimp only at h
        cases hn : normalize_url join src url with
        | none => rw [hn] at h; exact Or.inl h
        | some full =>
          rw [hn] at h
          dsimp only at h
          split at h
          · rcases mem_insertIfAbsent init full x h with h | h
            · exact Or.inl h
            · subst h; exact Or.inr ⟨src, hn⟩
          · exact Or.inl h
    · exact Or.inr h

theorem srcset_go_mem (join : String → String → String) (base_url : String)
    (parts : List String) :
    ∀ (out : List String), srcset_go join base_url parts = Except.ok out →
      ∀ x ∈ out, ∃ w, normalize_url join w base_url = some x := by
  induction parts with
  | nil =>
    intro out h x hx
    cases h
    simp at hx
  | cons part rest ih =>
    intro out h x hx
    unfold srcset_go at h
    cases hf : firstWord part with
    | none => rw [hf] at h; cases h
    | some w =>
      rw [hf] at h
      dsimp only at h
      cases hg : srcset_go join base_url rest with
      | error e => rw [hg] at h; cases h
      | ok tl =>
        rw [hg] at h
        dsimp only at h
        cases hn : normalize_url join w base_url with
        | none =>
          rw [hn] at h
          cases h
          exact ih _ hg x hx
        | some full =>
          rw [hn] at h
          dsimp only at h
          split at h
          · cases h
            rcases List.mem_cons.mp hx with hx | hx
            · subst hx; exact ⟨w, hn⟩
            · exact ih _ hg x hx
          · cases h
            exact ih _ hg x hx

theorem srcsetAll_mem (join : String → String → String) (base_url : String)
    (srcsets : List String) :
    ∀ (out : List String), srcsetAll join base_url srcsets = Except.ok out →
      ∀ x ∈ out, ∃ w, normalize_url join w base_url = some x := by
  induction srcsets with
  | nil =>
    intro out h x hx
    cases h
    simp at hx
  | cons s rest ih =>
    intro out h x hx
    unfold srcsetAll at h
    cases hu : srcset_urls join s base_url with
    | error e => rw [hu] at h; cases h
    | ok u =>
      rw [hu] at h
      dsimp only at h
      cases hr : srcsetAll join base_url rest with
      | error e => rw [hr] at h; cases h
      | ok r =>
        rw [hr] at h
        cases h
        rcases List.mem_append.mp hx with hx | hx
        · exact srcset_go_mem join base_url (s.splitOn ",") u hu x hx
        · exact ih r hr x hx

/-- Every candidate emitted by `_scrape_page` carries a URL produced by
`_normalize_url`. -/
theorem scrape_page_url_normalized (env : CrawlEnv) (url : String)
    (ir : ImageResult) (h : ir ∈ scrape_page env url) :
    ∃ src, normalize_url env.join src url = some ir.url := by
  unfold scrape_page at h
  cases hw : env.web url with
  | error e => rw [hw] at h; simp at h
  | ok pd =>
    rw [hw] at h
    dsimp only at h
    split at h
    · cases hs : srcsetAll env.join url pd.srcsets with
      | error e => rw [hs] at h; simp at h
      | ok fromSrcsets =>
        rw [hs] at h
        dsimp only at h
        obtain ⟨u, hu, rfl⟩ := List.mem_map.mp h
        show ∃ src, normalize_url env.join src url = some u
        rcases mem_foldl_insertIfAbsent _ _ _ hu with hu | hu
        · rcases mem_foldl_insertIfAbsent _ _ _ hu with hu | hu
          · rcases mem_foldl_img_src_step env.join url pd.imgSrcs [] u hu with hu | hu
            · simp at hu
            · exact hu
          · exact srcsetAll_mem env.join url pd.srcsets fromSrcsets hs u hu
        · obtain ⟨m, _, hm⟩ := List.mem_filterMap.mp hu
          unfold css_ref_norm at hm
          cases hn : normalize_url env.join m url with
          | none => rw [hn] at hm; cases hm
          | some full =>
            rw [hn] at hm
            dsimp only at hm
            split at hm
            · cases hm; exact ⟨m, hn⟩
            · cases hm
    · simp at h

/-- Every link `_find_page_links` returns carries a URL produced by
`_normalize_url`. -/
theorem mem_find_page_links_normalized (env : CrawlEnv) (visited : List String)
    (base_url url : String) (depth max_depth : Nat) (p : String × Nat)
    (h : p ∈ find_page_links env visited base_url url depth max_depth) :
    ∃ a, normalize_url env.join a url = some p.1 := by
  unfold find_page_links at h
  by_cases hd : depth > max_depth
  · rw [if_pos hd] at h; simp at h
  · rw [if_neg hd] at h
    cases hw : env.web url with
    | error e => rw [hw] at h; simp at h
    | ok pd =>
      rw [hw] at h
      dsimp only at h
      by_cases hs : pd.status = 200
      · rw [if_pos hs] at h
        obtain ⟨a, _, hfa⟩ := List.mem_filterMap.mp h
        unfold link_pair at hfa
        cases hn : normalize_url env.join a url with
        | none => rw [hn] at hfa; cases hfa
        | some full =>
          rw [hn] at hfa
          dsimp only at hfa
          split at hfa
          · cases hfa; exact ⟨a, hn⟩
          · cases hfa
      · rw [if_neg hs] at h; simp at h

theorem mem_seen_fold (l : List ImageResult) :
    ∀ (acc : List String × List ImageResult) (x : ImageResult),
      x ∈ (l.foldl (fun (acc : List String × List ImageResult) ir =>
            if acc.1.contains ir.url then acc
            else (acc.1 ++ [ir.url], acc.2 ++ [ir])) acc).2 →
      x ∈ acc.2 ∨ x ∈ l := by
  induction l with
  | nil => intro acc x h; exact Or.inl h
  | cons ir l ihl =>
    intro acc x h
    rcases ihl _ x h with h | h
    · dsimp only at h
      split at h
      · exact Or.inl h
      · dsimp only at h
        rcases List.mem_append.mp h with h | h
        · exact Or.inl h
        · have hx : x = ir := by simpa using h
          subst hx
          exact Or.inr (List.mem_cons_self x l)
    · exact Or.inr (List.mem_cons_of_mem _ h)

theorem crawl_loop_emits (env : CrawlEnv) (max_images max_depth : Nat)
    (base_url : String) (P : ImageResult → Prop) (Q : String × Nat → Prop)
    (hpage : ∀ url ir, ir ∈ scrape_page env url → P ir)
    (hlink : ∀ visited' current_url depth nresults p,
      p ∈ crawl_new_links env max_images max_depth base_url visited' current_url
            depth nresults → Q p) :
    ∀ (fuel : Nat) (st : CrawlState),
      (∀ ir ∈ st.results, P ir) → (∀ p ∈ st.pushed, Q p) →
      (∀ ir ∈ (crawl_loop env max_images max_depth base_url fuel st).results, P ir)
      ∧ (∀ p ∈ (crawl_loop env max_images max_depth base_url fuel st).pushed,
          Q p) := by
  intro fuel
  induction fuel with
  | zero => intro st h1 h2; exact ⟨h1, h2⟩
  | succ fuel ih =>
    intro st h1 h2
    rw [crawl_loop]
    cases hfr : st.frontier with
    | nil => exact ⟨h1, h2⟩
    | cons hd rest =>
      obtain ⟨current_url, depth⟩ := hd
      dsimp only
      by_cases hmax : st.results.length ≥ max_images
      · rw [if_pos hmax]; exact ⟨h1, h2⟩
      · rw [if_neg hmax]
        by_cases hvisited : st.visited.contains current_url = true
        · rw [if_pos hvisited]; exact ih _ h1 h2
        · rw [if_neg hvisited]
          by_cases hdmax : depth > max_depth
          · rw [if_pos hdmax]; exact ih _ h1 h2
          · rw [if_neg hdmax]
            refine ih _ ?_ ?_
            · intro ir hir
              rcases mem_seen_fold (scrape_page env current_url) _ ir hir with h | h
              · exact h1 ir h
              · exact hpage current_url ir h
            · intro p hp
              rcases List.mem_append.mp hp with hp | hp
              · exact h2 p hp
              · exact hlink _ _ _ _ p hp

/-- **C10.** Every candidate the website crawler returns has a URL whose
parsed scheme is `http` or `https`, every URL pushed onto the crawl frontier
does too, and `_normalize_url` rejects (for any join oracle) references that
are empty after fragment stripping, `data:` URIs, and URLs ending in `.pdf`,
so none of those are ever emitted or enqueued. -/
theorem crawler_candidates_absolute_http (env : CrawlEnv)
    (respect_robots : Bool) (max_depth : Nat) (url : String)
    (max_images fuel : Nat) :
    (∀ ir ∈ (scrape_website env respect_robots max_depth url max_images
        fuel).results,
      (urlparse ir.url).scheme = "http" ∨ (urlparse ir.url).scheme = "https")
    ∧ (∀ p ∈ (scrape_website env respect_robots max_depth url max_images
        fuel).pushed,
      (urlparse p.1).scheme = "http" ∨ (urlparse p.1).scheme = "https")
    ∧ (∀ (join : String → String → String) (u b : String),
      (strStrip (strTakeUntilHash u) = "" → normalize_url join u b = none)
      ∧ (("data:".data).isPrefixOf (strStrip (strTakeUntilHash u)).data = true →
          normalize_url join u b = none)
      ∧ (strEndsWith (strStrip (strTakeUntilHash u)) ".pdf" = true →
          normalize_url join u b = none)) := by
  refine ⟨?_, ?_, fun join u b => normalize_url_rejects join u b⟩
  all_goals
    unfold scrape_website
    split
    · simp
    · split
      · simp
      · have h := crawl_loop_emits env max_images max_depth (get_base_url url)
          (fun ir => (urlparse ir.url).scheme = "http"
            ∨ (urlparse ir.url).scheme = "https")
          (fun p => (urlparse p.1).scheme = "http"
            ∨ (urlparse p.1).scheme = "https")
          (fun u ir hir => by
            obtain ⟨src, hn⟩ := scrape_page_url_normalized env u ir hir
            exact normalize_url_scheme env.join src u ir.url hn)
          (fun v cu d n p hp => by
            unfold crawl_new_links at hp
            split at hp
            · obtain ⟨a, hn⟩ := mem_find_page_links_normalized env v
                (get_base_url url) cu (d + 1) max_depth p hp
              exact normalize_url_scheme env.join a cu p.1 hn
            · simp at hp)
          fuel ⟨[], [], [], [(url, 0)], [], []⟩ (by simp) (by simp)
        first
          | exact h.1
          | exact h.2

/-- Witness for C10 at a concrete environment, seed and fuel. -/
theorem crawler_candidates_absolute_http_witness :
    (∀ ir ∈ (scrape_website crawlEnvW false 2 "http://e/x" 10 5).results,
      (urlparse ir.url).scheme = "http" ∨ (urlparse ir.url).scheme = "https")
    ∧ (∀ p ∈ (scrape_website crawlEnvW false 2 "http://e/x" 10 5).pushed,
      (urlparse p.1).scheme = "http" ∨ (urlparse p.1).scheme = "https")
    ∧ (∀ (join : String → String → String) (u b : String),
      (strStrip (strTakeUntilHash u) = "" → normalize_url join u b = none)
      ∧ (("data:".data).isPrefixOf (strStrip (strTakeUntilHash u)).data = true →
          normalize_url join u b = none)
      ∧ (strEndsWith (strStrip (strTakeUntilHash u)) ".pdf" = true →
          normalize_url join u b = none)) :=
  crawler_candidates_absolute_http crawlEnvW false 2 "http://e/x" 10 5

/-! ### Error propagation (C6): storage.py:65-116 against the per-candidate,
per-page and per-client handlers. -/

/-- **C6 counterexample.** At a concrete failing write, `save_image_metadata`
returns `Except.ok (false, unchanged file)`: the persistence exception is
caught inside the function and reported as a `False` return value — it is not
re-raised to the caller of the batch. -/
theorem save_image_metadata_swallows_write_error :
    save_image_metadata (some sampleFile) false "now" sampleBatch
      = Except.ok (false, some sampleFile)
    ∧ ∀ e, save_image_metadata (some sampleFile) false "now" sampleBatch
      ≠ Except.error e := by
  have h1 : save_image_metadata (some sampleFile) false "now" sampleBatch
      = Except.ok (false, some sampleFile) := rfl
  exact ⟨h1, fun e h => by rw [h1] at h; cases h⟩

/-- **C6 (amended).** A persistence failure while saving a batch's metadata is
reported to the caller of the batch as a `False` return value with the store
unchanged — the exception is caught and logged, never re-raised — and no call
to `save_image_metadata` escapes with an exception; meanwhile errors local to
one candidate (batch result filtering), one client (manager gather loop) or
one page (scrape error) are recovered at that boundary and contribute
nothing. -/
theorem persistence_failure_reporting :
    (∀ (file : Option CsvFile) (t : String) (ms : List ImageMetadata),
      ms ≠ [] → save_image_metadata file false t ms = Except.ok (false, file))
    ∧ (∀ (file : Option CsvFile) (writeOk : Bool) (t : String)
        (ms : List ImageMetadata),
      ∃ b file', save_image_metadata file writeOk t ms = Except.ok (b, file'))
    ∧ (∀ (acc : List ImageMetadata)
        (rs : List (Except String (Option ImageMetadata))),
      batch_filter_loop acc rs
        = acc ++ rs.filterMap (fun r => match r with
            | Except.ok (some m) => some m
            | _ => none))
    ∧ (∀ (e : Unit) (rest : List (Except Unit (List ImageResult))),
      gatherLoop (Except.error e :: rest) = gatherLoop rest)
    ∧ (∀ (env : CrawlEnv) (url : String) (e : Unit),
      env.web url = Except.error e → scrape_page env url = []) := by
  refine ⟨?_, ?_, ?_, fun e rest => rfl, ?_⟩
  · intro file t ms hne
    have hms : ms.isEmpty = false := by
      cases ms with
      | nil => exact absurd rfl hne
      | cons m rest => rfl
    simp [save_image_metadata, hms, save_try]
  · intro file writeOk t ms
    by_cases hms : ms.isEmpty = true
    · exact ⟨true, file, by simp [save_image_metadata, hms]⟩
    · cases writeOk with
      | false =>
        exact ⟨false, file, by simp [save_image_metadata, hms, save_try]⟩
      | true =>
        cases file with
        | none =>
          refine ⟨true, some ⟨METADATA_HEADERS,
            build_records (get_next_id none) t ms⟩, ?_⟩
          simp [save_image_metadata, hms, save_try]
        | some f =>
          refine ⟨true, some ⟨f.header,
            f.rows ++ build_records (get_next_id (some f)) t ms⟩, ?_⟩
          simp [save_image_metadata, hms, save_try]
  · intro acc rs
    induction rs generalizing acc with
    | nil => simp [batch_filter_loop]
    | cons r rest ih =>
      match r with
      | Except.error e => simp [batch_filter_loop, ih]
      | Except.ok none => simp [batch_filter_loop, ih]
      | Except.ok (some m) => simp [batch_filter_loop, ih]
  · intro env url e h
    unfold scrape_page
    rw [h]

/-- Witness for the amended C6 at concrete inputs. -/
theorem persistence_failure_reporting_witness :
    save_image_metadata (some sampleFile) false "now" sampleBatch
      = Except.ok (false, some sampleFile)
    ∧ scrape_page crawlEnvW "http://e/x" = [] :=
  ⟨persistence_failure_reporting.1 (some sampleFile) "now" sampleBatch
      (by simp [sampleBatch]),
   persistence_failure_reporting.2.2.2.2 crawlEnvW "http://e/x" () rfl⟩

/-- **C9 counterexample.** A 200 response whose `photos` list contains an item
without a `src` field makes `search_images` raise a `KeyError` past its own
boundary instead of resolving the missing field to a default. -/
theorem pexels_search_raises_on_missing_src :
    pexels_search_images "key"
        (MkReqOutcome.resp 200
          (some (Json.obj [("photos", Json.arr [Json.obj []])])))
      = Except.error "KeyError"
    ∧ ∀ l, pexels_search_images "key"
        (MkReqOutcome.resp 200
          (some (Json.obj [("photos", Json.arr [Json.obj []])])))
      ≠ Except.ok l := by
  have h1 : pexels_search_images "key"
      (MkReqOutcome.resp 200
        (some (Json.obj [("photos", Json.arr [Json.obj []])])))
      = Except.error "KeyError" := rfl
  exact ⟨h1, fun l h => by rw [h1] at h; cases h⟩

/-- **C9 (amended).** A missing API key, a transport exception, a non-200
status and a response without a `photos` key all yield the empty list without
raising; and for items that do carry `src.original` and `src.medium`, the
optional `alt`/`width`/`height` fields resolve to the defaults `''`/`0`; but a
missing `src` (or `original`/`medium` inside it) raises a
`KeyError`/`TypeError` out of `search_images`. -/
theorem pexels_search_error_handling :
    (∀ outcome, pexels_search_images "" outcome = Except.ok [])
    ∧ (∀ api_key, pexels_search_images api_key MkReqOutcome.exn = Except.ok [])
    ∧ (∀ (api_key : String) (status : Nat) (body : Option Json),
        status ≠ 200 →
        pexels_search_images api_key (MkReqOutcome.resp status body)
          = Except.ok [])
    ∧ (∀ (api_key : String) (j : Json), jsonTruthy j = true →
        jsonHasKey j "photos" = Except.ok false →
        pexels_search_images api_key (MkReqOutcome.resp 200 (some j))
          = Except.ok [])
    ∧ (∀ u m : String,
        pexels_map_item (Json.obj [("src",
            Json.obj [("original", Json.str u), ("medium", Json.str m)])])
          = Except.ok { url := u, thumbnail_url := m, title := "",
                        source := "pexels", width := 0, height := 0 }) := by
  refine ⟨fun outcome => rfl, ?_, ?_, ?_, fun u m => rfl⟩
  · intro api_key
    by_cases h : (api_key == "") = true
    · simp [pexels_search_images, h]
    · simp [pexels_search_images, h, make_request]
  · intro api_key status body hs
    by_cases h : (api_key == "") = true
    · simp [pexels_search_images, h]
    · simp [pexels_search_images, h, make_request, hs]
  · intro api_key j htrue hkey
    by_cases h : (api_key == "") = true
    · simp [pexels_search_images, h]
    · simp [pexels_search_images, h, make_request, htrue, hkey]

/-- Witness for the amended C9 at concrete inputs. -/
theorem pexels_search_error_handling_witness :
    pexels_search_images "key" (MkReqOutcome.resp 404 none) = Except.ok []
    ∧ pexels_search_images "key"
        (MkReqOutcome.resp 200 (some (Json.obj [("page", Json.num 1)])))
      = Except.ok [] :=
  ⟨pexels_search_error_handling.2.2.1 "key" 404 none (by decide),
   pexels_search_error_handling.2.2.2.1 "key" (Json.obj [("page", Json.num 1)])
     rfl rfl⟩

theorem count_set_phase (l : List TaskPhase) (i : Nat) (a b c : TaskPhase)
    (h : l[i]? = some a) :
    (l.set i b).count c + (if a = c then 1 else 0)
      = l.count c + (if b = c then 1 else 0) := by
  induction l generalizing i with
  | nil => simp at h
  | cons x l ih =>
    cases i with
    | zero =>
      have hx : x = a := by simpa using h
      subst hx
      simp only [List.set]
      rw [List.count_cons, List.count_cons]
      by_cases hac : x = c <;> by_cases hbc : b = c <;> simp [hac, hbc]
    | succ i =>
      simp only [List.set]
      rw [List.count_cons, List.count_cons]
      have := ih i (by simpa using h)
      by_cases hxc : x = c <;> simp [hxc] <;> omega

theorem semStep_preserves (C : Nat) (s s' : SemState) (h : SemInv C s)
    (hs : SemStep s s') : SemInv C s' := by
  obtain ⟨l, hl, hmem⟩ := List.mem_flatten.mp hs
  obtain ⟨i, _, rfl⟩ := List.mem_map.mp hl
  unfold stepTask at hmem
  unfold SemInv at h ⊢
  cases hp : s.phases[i]? with
  | none => rw [hp] at hmem; cases hmem
  | some ph =>
    rw [hp] at hmem
    cases ph with
    | idle =>
      dsimp only at hmem
      split at hmem
      · have hs' : s' = ⟨s.phases.set i TaskPhase.downloading, s.sem - 1⟩ := by
          simpa using hmem
        subst hs'
        have h1 := count_set_phase s.phases i TaskPhase.idle
          TaskPhase.downloading TaskPhase.downloading hp
        have h2 := count_set_phase s.phases i TaskPhase.idle
          TaskPhase.downloading TaskPhase.working hp
        simp at h1 h2
        dsimp only
        omega
      · cases hmem
    | downloading =>
      have hs' : s' = ⟨s.phases.set i TaskPhase.working, s.sem⟩ := by
        simpa using hmem
      subst hs'
      have h1 := count_set_phase s.phases i TaskPhase.downloading
        TaskPhase.working TaskPhase.downloading hp
      have h2 := count_set_phase s.phases i TaskPhase.downloading
        TaskPhase.working TaskPhase.working hp
      simp at h1 h2
      dsimp only
      omega
    | working =>
      have hs' : s' = ⟨s.phases.set i TaskPhase.done, s.sem + 1⟩ := by
        simpa using hmem
      subst hs'
      have h1 := count_set_phase s.phases i TaskPhase.working
        TaskPhase.done TaskPhase.downloading hp
      have h2 := count_set_phase s.phases i TaskPhase.working
        TaskPhase.done TaskPhase.working hp
      simp at h1 h2
      dsimp only
      omega
    | done => cases hmem

theorem semReachable_inv (C n : Nat) (s : SemState)
    (h : SemReachable (batchInit C n) s) : SemInv C s := by
  induction h with
  | refl =>
    unfold SemInv batchInit
    simp [List.count_replicate]
  | tail _ hbc ih => exact semStep_preserves C _ _ ih hbc

/-- **C4 counterexample.** With capacity 1 and a batch of two candidates, the
event loop can reach a state in which task 0 is validating/hashing/persisting
its already-downloaded image while still holding the only permit (`working`,
`sem = 0`), and no step lets task 1 begin its download: the semaphore guards
the whole per-candidate pipeline, so validation of one candidate does block
another candidate behind the download limiter. -/
theorem semaphore_blocks_validation :
    SemReachable (batchInit 1 2) ⟨[TaskPhase.working, TaskPhase.idle], 0⟩
    ∧ (⟨[TaskPhase.working, TaskPhase.idle], 0⟩ : SemState).sem = 0
    ∧ (∀ s' ∈ semSteps ⟨[TaskPhase.working, TaskPhase.idle], 0⟩,
        s'.phases[1]? = some TaskPhase.idle) := by
  refine ⟨?_, rfl, by decide⟩
  have s1 : SemStep (batchInit 1 2)
      ⟨[TaskPhase.downloading, TaskPhase.idle], 0⟩ := by
    unfold SemStep; decide
  have s2 : SemStep ⟨[TaskPhase.downloading, TaskPhase.idle], 0⟩
      ⟨[TaskPhase.working, TaskPhase.idle], 0⟩ := by
    unfold SemStep; decide
  exact Relation.ReflTransGen.tail
    (Relation.ReflTransGen.tail Relation.ReflTransGen.refl s1) s2

/-- **C4 (amended).** In every reachable state of a batch run with semaphore
capacity `C`, the number of simultaneously in-flight downloads never exceeds
`C` (with `C = MAX_CONCURRENT_REQUESTS = 3` by default) — but the semaphore
guards the entire per-candidate pipeline, not only the download stage. -/
theorem download_concurrency_bound (C n : Nat) (s : SemState)
    (h : SemReachable (batchInit C n) s) :
    downloadsInFlight s ≤ C ∧ downloadsInFlight (batchInit MAX_CONCURRENT_REQUESTS n) = 0 := by
  have hinv := semReachable_inv C n s h
  unfold SemInv at hinv
  unfold downloadsInFlight
  constructor
  · omega
  · unfold batchInit
    simp [List.count_replicate]

/-- Witness for the amended C4 at a concrete reachable state. -/
theorem download_concurrency_bound_witness :
    downloadsInFlight ⟨[TaskPhase.downloading, TaskPhase.idle], 0⟩ ≤ 1
    ∧ downloadsInFlight (batchInit MAX_CONCURRENT_REQUESTS 2) = 0 :=
  download_concurrency_bound 1 2 ⟨[TaskPhase.downloading, TaskPhase.idle], 0⟩
    (Relation.ReflTransGen.tail Relation.ReflTransGen.refl
      (by unfold SemStep; decide))

end BoxHunt
